import Mathlib

/-!
IfxMcsUniDirectionalMotor: a verification development.

A shallow embedding of `src/IfxMcsUniDirectionalMotor.cpp`, the driver of one
half-bridge of the BTN8982 DC motor control shield, together with theorems
about its enable / run / speed state machine.

* The object fields `mEnabled`, `mRunning`, `mSpeed` form the record
  `IfxMcsUniDirectionalMotor`; `mSpeed` is a `uint8_t`, kept as a `Nat` that is
  reduced modulo `256` wherever a value is converted to `uint8_t`.
* `mOut` is a pointer to an `IfxMcs::Halfbridge`.  A `Machine` pairs one motor
  object with the half-bridge it points to and with the list of platform calls
  issued so far; a `Board` holds several motor objects that point to the same
  half-bridge.
* The platform primitives `pinMode`, `digitalWrite` and `IfxMcs::ouputHfPwm`
  are recorded, in order, in the list of calls.
* The header that defines `IFX_MCS_INITIALSPEED`, `IFX_MCS_LOWESTSPEED` and
  `IFX_MCS_HIGHESTSPEED` is not part of the sources, so the three constants are
  the fields of a parameter `Constants`.
-/

namespace IfxMcs

/-! ## Platform layer -/

/-- Pin directions accepted by `pinMode`. -/
inductive PinMode where
  | INPUT
  | OUTPUT
  deriving DecidableEq, Repr

/-- Levels accepted by `digitalWrite`. -/
inductive PinLevel where
  | LOW
  | HIGH
  deriving DecidableEq, Repr

/-- One call of a platform primitive, as issued by the driver. -/
inductive PlatformCall where
  | pinMode (pin : Nat) (mode : PinMode)
  | digitalWrite (pin : Nat) (val : PinLevel)
  | ouputHfPwm (pin : Nat) (value : Nat)
  deriving DecidableEq, Repr

/-- The descriptor `IfxMcs::Halfbridge`: the fields the driver reads and writes
(`pinIn` drive pin, `pinInh` inhibit pin, `pinIs` sense pin, `active` claim flag). -/
structure Halfbridge where
  pinIn : Nat
  pinInh : Nat
  pinIs : Nat
  active : Bool
  deriving DecidableEq, Repr

/-- The three preprocessor constants of the missing header, taken as parameters. -/
structure Constants where
  IFX_MCS_INITIALSPEED : Nat
  IFX_MCS_LOWESTSPEED : Nat
  IFX_MCS_HIGHESTSPEED : Nat
  deriving DecidableEq, Repr

end IfxMcs

open IfxMcs

/-! ## The motor object -/

/-- The data members of the class (`mOut` apart, see `Machine`). -/
structure IfxMcsUniDirectionalMotor where
  mEnabled : Bool
  mRunning : Bool
  mSpeed : Nat
  deriving DecidableEq, Repr

/-- A motor object, the half-bridge `mOut` points to, and the platform calls so far. -/
structure Machine where
  motor : IfxMcsUniDirectionalMotor
  out : Halfbridge
  calls : List PlatformCall
  deriving DecidableEq, Repr

namespace Machine

/-- Conversion of an argument to `uint8_t`. -/
def toUint8 (v : Nat) : Nat := v % 256

/-- Records a call `pinMode(pin, mode)`. -/
def pinMode (pin : Nat) (mode : PinMode) (s : Machine) : Machine :=
  { s with calls := s.calls ++ [PlatformCall.pinMode pin mode] }

/-- Records a call `digitalWrite(pin, val)`. -/
def digitalWrite (pin : Nat) (val : PinLevel) (s : Machine) : Machine :=
  { s with calls := s.calls ++ [PlatformCall.digitalWrite pin val] }

/-- Records a call `IfxMcs::ouputHfPwm(pin, value)`. -/
def ouputHfPwm (pin : Nat) (value : Nat) (s : Machine) : Machine :=
  { s with calls := s.calls ++ [PlatformCall.ouputHfPwm pin value] }

/-- Assignment `mRunning = v`. -/
def setRunning (v : Bool) (s : Machine) : Machine :=
  { s with motor := { s.motor with mRunning := v } }

/-- Assignment `mEnabled = v`. -/
def setEnabled (v : Bool) (s : Machine) : Machine :=
  { s with motor := { s.motor with mEnabled := v } }

/-- Assignment `mSpeed = v`. -/
def setSpeedField (v : Nat) (s : Machine) : Machine :=
  { s with motor := { s.motor with mSpeed := v } }

/-- Assignment `mOut->active = v`. -/
def setActive (v : Bool) (s : Machine) : Machine :=
  { s with out := { s.out with active := v } }

/-- The method `update()`. -/
def update (k : Constants) (s : Machine) : Machine :=
  if s.motor.mEnabled = false then s
  else
    let s1 := if s.motor.mSpeed < k.IFX_MCS_LOWESTSPEED then s.setRunning false else s
    if s1.motor.mRunning = false then
      let s2 := s1.digitalWrite s1.out.pinInh PinLevel.LOW
      let s3 := s2.pinMode s2.out.pinIn PinMode.OUTPUT
      s3.digitalWrite s3.out.pinIn PinLevel.LOW
    else
      let s2 :=
        if s1.motor.mSpeed > k.IFX_MCS_HIGHESTSPEED then
          let t := s1.pinMode s1.out.pinIn PinMode.OUTPUT
          t.digitalWrite t.out.pinIn PinLevel.HIGH
        else
          s1.ouputHfPwm s1.out.pinIn s1.motor.mSpeed
      s2.digitalWrite s2.out.pinInh PinLevel.HIGH

/-- The method `setSpeed(uint8_t speed)`. -/
def setSpeed (k : Constants) (speed : Nat) (s : Machine) : Machine :=
  update k (s.setSpeedField (toUint8 speed))

/-- The method `stop()`. -/
def stop (k : Constants) (s : Machine) : Machine :=
  update k (s.setRunning false)

/-- The method `start()`. -/
def start (k : Constants) (s : Machine) : Machine :=
  update k (s.setRunning true)

/-- The method `start(uint8_t speed)`. -/
def startSpeed (k : Constants) (speed : Nat) (s : Machine) : Machine :=
  start k (setSpeed k (toUint8 speed) s)

/-- The method `begin()`: the returned flag and the state it leaves. -/
def begin (k : Constants) (s : Machine) : Bool × Machine :=
  if s.out.active = true then (true, s)
  else
    let s1 := s.setActive true
    let s2 := s1.setEnabled true
    let s3 := s2.pinMode s2.out.pinIn PinMode.OUTPUT
    let s4 := s3.pinMode s3.out.pinInh PinMode.OUTPUT
    let s5 := s4.pinMode s4.out.pinIs PinMode.INPUT
    let s6 := setSpeed k k.IFX_MCS_INITIALSPEED s5
    (false, stop k s6)

/-- The method `end()`. -/
def end_ (k : Constants) (s : Machine) : Machine :=
  if s.motor.mEnabled = false then s
  else
    let s1 := stop k s
    let s2 := s1.setActive false
    s2.setEnabled false

/-- The method `getEnabled()`. -/
def getEnabled (s : Machine) : Bool := s.motor.mEnabled

/-- The method `getRunning()`. -/
def getRunning (s : Machine) : Bool := s.motor.mRunning

/-- The method `getSpeed()`. -/
def getSpeed (s : Machine) : Nat := s.motor.mSpeed

end Machine

/-- The off-state sequence of `update()`: inhibit pin LOW, drive pin OUTPUT, drive pin LOW. -/
def offCalls (o : Halfbridge) : List PlatformCall :=
  [PlatformCall.digitalWrite o.pinInh PinLevel.LOW,
   PlatformCall.pinMode o.pinIn PinMode.OUTPUT,
   PlatformCall.digitalWrite o.pinIn PinLevel.LOW]

/-- Sample values of the three constants, used for concrete evaluations. -/
def sampleConstants : Constants :=
  { IFX_MCS_INITIALSPEED := 127, IFX_MCS_LOWESTSPEED := 5, IFX_MCS_HIGHESTSPEED := 240 }

/-- A sample half-bridge descriptor (drive pin 3, inhibit pin 12, sense pin 14). -/
def sampleOut (active : Bool) : Halfbridge :=
  { pinIn := 3, pinInh := 12, pinIs := 14, active := active }

/-! ## Construction, call sequences, several channels on one half-bridge -/

/-- The constructor `IfxMcsUniDirectionalMotor(IfxMcs::Halfbridge *out)`: it assigns
`mEnabled = FALSE` and `mSpeed = 0U` (and `mOut`), and does not assign `mRunning`,
which keeps the value `prior` that the storage of the object held. -/
def IfxMcsUniDirectionalMotor.construct (prior : IfxMcsUniDirectionalMotor) :
    IfxMcsUniDirectionalMotor :=
  { prior with mEnabled := false, mSpeed := 0 }

/-- Zero-initialised storage, as that of the two pre-instantiated static objects. -/
def zeroStorage : IfxMcsUniDirectionalMotor :=
  { mEnabled := false, mRunning := false, mSpeed := 0 }

/-- A freshly constructed channel with `mEnabled = false`, `mRunning = false`, `mSpeed = 0`. -/
def freshMotor : IfxMcsUniDirectionalMotor := zeroStorage.construct

/-- One call of a public state-changing method. -/
inductive Op where
  | begin
  | end_
  | start
  | startSpeed (speed : Nat)
  | stop
  | setSpeed (speed : Nat)
  deriving DecidableEq, Repr

namespace Machine

/-- The property `mRunning` implies `mEnabled` of one state. -/
def RunningImpliesEnabled (s : Machine) : Prop :=
  s.motor.mRunning = true → s.motor.mEnabled = true

/-- The effect of one method call (the flag returned by `begin()` is dropped). -/
def step (k : Constants) (op : Op) (s : Machine) : Machine :=
  match op with
  | Op.begin => (begin k s).2
  | Op.end_ => end_ k s
  | Op.start => start k s
  | Op.startSpeed v => startSpeed k v s
  | Op.stop => stop k s
  | Op.setSpeed v => setSpeed k v s

/-- The effect of a finite sequence of method calls, first call first. -/
def run (k : Constants) : List Op → Machine → Machine
  | [], s => s
  | op :: ops, s => run k ops (step k op s)

end Machine

/-- Several motor objects whose `mOut` all point to the same half-bridge. -/
structure Board where
  motors : List IfxMcsUniDirectionalMotor
  out : Halfbridge
  calls : List PlatformCall
  deriving DecidableEq, Repr

namespace Board

/-- Method call `op` on the `i`-th motor object (no effect when there is no such object). -/
def call (k : Constants) (i : Nat) (op : Op) (b : Board) : Board :=
  match b.motors[i]? with
  | none => b
  | some m =>
    let r := Machine.step k op { motor := m, out := b.out, calls := b.calls }
    { motors := b.motors.set i r.motor, out := r.out, calls := r.calls }

/-- An interleaved sequence of method calls, each on the motor object it names. -/
def run (k : Constants) : List (Nat × Op) → Board → Board
  | [], b => b
  | c :: cs, b => run k cs (call k c.1 c.2 b)

/-- The `i`-th motor object exists and has `mEnabled` true. -/
def enabledAt (b : Board) (i : Nat) : Prop :=
  ∃ m, b.motors[i]? = some m ∧ m.mEnabled = true

/-- The ownership invariant of a board: at most one motor object is enabled, and
`active` is set exactly when one is. -/
def Owned (b : Board) : Prop :=
  (∀ i j, b.enabledAt i → b.enabledAt j → i = j) ∧
  (b.out.active = true ↔ ∃ i, b.enabledAt i)

end Board

/-- The call is one of the two overloads of `start`. -/
def Op.isStart : Op → Bool
  | Op.start => true
  | Op.startSpeed _ => true
  | _ => false

/-- Every `start` call of the sequence is made in a state where `mEnabled` is true. -/
def startsWhileEnabled (k : Constants) : List Op → Machine → Bool
  | [], _ => true
  | op :: ops, s =>
    (!op.isStart || s.motor.mEnabled) && startsWhileEnabled k ops (Machine.step k op s)

/-- The most recent `start`/`stop` call of a sequence: `some true` for a `start`,
`some false` for a `stop`, `none` when the sequence has neither. -/
def lastStartStop : List Op → Option Bool
  | [] => none
  | op :: ops =>
    match lastStartStop ops with
    | some b => some b
    | none =>
      match op with
      | Op.start => some true
      | Op.startSpeed _ => some true
      | Op.stop => some false
      | _ => none

/-- What a pin is driven with: a level written by `digitalWrite`, or a PWM duty cycle. -/
inductive PinDrive where
  | level (val : PinLevel)
  | pwm (value : Nat)
  deriving DecidableEq, Repr

/-- What the call drives `pin` with, if it drives that pin at all. -/
def driveOf (pin : Nat) : PlatformCall → Option PinDrive
  | PlatformCall.digitalWrite p val => if p = pin then some (PinDrive.level val) else none
  | PlatformCall.ouputHfPwm p value => if p = pin then some (PinDrive.pwm value) else none
  | PlatformCall.pinMode _ _ => none

/-- The most recent drive of `pin` in a list of calls (oldest call first). -/
def lastDrive (pin : Nat) (calls : List PlatformCall) : Option PinDrive :=
  calls.foldl (fun acc c => match driveOf pin c with
    | some d => some d
    | none => acc) none

/-- The sequence contains a `begin()` with no `end()` after it. -/
def HasOpenBegin (ops : List Op) : Prop :=
  ∃ pre post, ops = pre ++ Op.begin :: post ∧ Op.end_ ∉ post

/-- The scenario `begin(); start(200); setSpeed(250); stop(); end()` on a freshly
constructed channel: the state after its first `n` calls. -/
def scenarioState (k : Constants) (out : Halfbridge) (n : Nat) : Machine :=
  Machine.run k
    ([Op.begin, Op.startSpeed 200, Op.setSpeed 250, Op.stop, Op.end_].take n)
    { motor := freshMotor, out := out, calls := [] }

/-- The outputs reflect the logical state: the inhibit pin is last driven HIGH exactly
when `mRunning` is true, and the drive pin is last driven LOW when `mRunning` is false,
HIGH when running with `mSpeed > IFX_MCS_HIGHESTSPEED`, and with a PWM duty cycle equal
to `mSpeed` otherwise. -/
def OutputsReflect (k : Constants) (s : Machine) : Prop :=
  (lastDrive s.out.pinInh s.calls = some (PinDrive.level PinLevel.HIGH) ↔
    s.motor.mRunning = true) ∧
  lastDrive s.out.pinIn s.calls =
    some (if s.motor.mRunning = false then PinDrive.level PinLevel.LOW
          else if s.motor.mSpeed > k.IFX_MCS_HIGHESTSPEED then PinDrive.level PinLevel.HIGH
          else PinDrive.pwm s.motor.mSpeed)

/-- Every PWM call of the list has its duty cycle between the two thresholds. -/
def PwmInRange (k : Constants) (cs : List PlatformCall) : Prop :=
  ∀ p i, PlatformCall.ouputHfPwm p i ∈ cs →
    k.IFX_MCS_LOWESTSPEED ≤ i ∧ i ≤ k.IFX_MCS_HIGHESTSPEED

/-- The calls of `t` are those of `s` followed by calls whose PWM duty cycles are in range. -/
def IssuesInRange (k : Constants) (s t : Machine) : Prop :=
  ∃ new, t.calls = s.calls ++ new ∧ PwmInRange k new

/-- The state inside a successful `begin()` right before the `update()` of
`setSpeed(IFX_MCS_INITIALSPEED)`: the claim is taken, the three pins are configured and
`mSpeed` is assigned. -/
def Machine.beginBeforeUpdate (k : Constants) (s : Machine) : Machine :=
  let s1 := s.setActive true
  let s2 := s1.setEnabled true
  let s3 := s2.pinMode s2.out.pinIn PinMode.OUTPUT
  let s4 := s3.pinMode s3.out.pinInh PinMode.OUTPUT
  let s5 := s4.pinMode s4.out.pinIs PinMode.INPUT
  s5.setSpeedField (Machine.toUint8 k.IFX_MCS_INITIALSPEED)

/-- The three pin configurations of `begin()`. -/
def beginPinModes (o : Halfbridge) : List PlatformCall :=
  [PlatformCall.pinMode o.pinIn PinMode.OUTPUT,
   PlatformCall.pinMode o.pinInh PinMode.OUTPUT,
   PlatformCall.pinMode o.pinIs PinMode.INPUT]

/-- The calls of the `update()` that `setSpeed(IFX_MCS_INITIALSPEED)` makes inside a
successful `begin()`, for the value `running` that `mRunning` had when `begin()` was called. -/
def beginFirstUpdateCalls (k : Constants) (o : Halfbridge) (running : Bool) :
    List PlatformCall :=
  if running = false ∨ Machine.toUint8 k.IFX_MCS_INITIALSPEED < k.IFX_MCS_LOWESTSPEED then
    offCalls o
  else if Machine.toUint8 k.IFX_MCS_INITIALSPEED > k.IFX_MCS_HIGHESTSPEED then
    [PlatformCall.pinMode o.pinIn PinMode.OUTPUT,
     PlatformCall.digitalWrite o.pinIn PinLevel.HIGH,
     PlatformCall.digitalWrite o.pinInh PinLevel.HIGH]
  else
    [PlatformCall.ouputHfPwm o.pinIn (Machine.toUint8 k.IFX_MCS_INITIALSPEED),
     PlatformCall.digitalWrite o.pinInh PinLevel.HIGH]

/-! ## Auxiliary lemmas -/

namespace Machine

theorem update_mEnabled (k : Constants) (s : Machine) :
    (update k s).motor.mEnabled = s.motor.mEnabled := by
  unfold update
  simp only [setRunning, digitalWrite, pinMode, ouputHfPwm]
  repeat (split <;> try rfl)

theorem update_mSpeed (k : Constants) (s : Machine) :
    (update k s).motor.mSpeed = s.motor.mSpeed := by
  unfold update
  simp only [setRunning, digitalWrite, pinMode, ouputHfPwm]
  repeat (split <;> try rfl)

theorem update_out (k : Constants) (s : Machine) : (update k s).out = s.out := by
  unfold update
  simp only [setRunning, digitalWrite, pinMode, ouputHfPwm]
  repeat (split <;> try rfl)

theorem update_disabled (k : Constants) (s : Machine) (h : s.motor.mEnabled = false) :
    update k s = s := by
  simp [update, h]

theorem step_other_flags (k : Constants) (op : Op) (s : Machine)
    (hb : op ≠ Op.begin) (he : op ≠ Op.end_) :
    (step k op s).motor.mEnabled = s.motor.mEnabled ∧ (step k op s).out = s.out := by
  cases op <;>
  simp [step, start, startSpeed, stop, setSpeed, update_mEnabled, update_out,
    setRunning, setSpeedField] at hb he ⊢

theorem begin_free_flags (k : Constants) (s : Machine) (h : s.out.active = false) :
    (begin k s).2.motor.mEnabled = true ∧ (begin k s).2.out.active = true := by
  simp [begin, h, stop, setSpeed, update_mEnabled, update_out, setRunning, setSpeedField,
    pinMode, setEnabled, setActive]

theorem end_enabled_flags (k : Constants) (s : Machine) (h : s.motor.mEnabled = true) :
    (end_ k s).motor.mEnabled = false ∧ (end_ k s).out.active = false := by
  simp [end_, h, setEnabled, setActive]

/-- How one method call relates `mEnabled` and `active` before and after it. -/
theorem step_flags (k : Constants) (op : Op) (s : Machine) :
    ((step k op s).motor.mEnabled = s.motor.mEnabled ∧
      (step k op s).out.active = s.out.active) ∨
    (s.out.active = false ∧ (step k op s).motor.mEnabled = true ∧
      (step k op s).out.active = true) ∨
    (s.motor.mEnabled = true ∧ (step k op s).motor.mEnabled = false ∧
      (step k op s).out.active = false) := by
  by_cases hb : op = Op.begin
  · subst hb
    cases ha : s.out.active
    · exact Or.inr (Or.inl ⟨rfl, begin_free_flags k s ha⟩)
    · left
      simp [step, begin, ha]
  · by_cases he : op = Op.end_
    · subst he
      cases hen : s.motor.mEnabled
      · left
        simp [step, end_, hen]
      · exact Or.inr (Or.inr ⟨rfl, end_enabled_flags k s hen⟩)
    · left
      have h := step_other_flags k op s hb he
      exact ⟨h.1, by rw [h.2]⟩

end Machine

namespace Board

theorem enabledAt_call (k : Constants) (i : Nat) (op : Op) (b : Board)
    (m : IfxMcsUniDirectionalMotor) (hm : b.motors[i]? = some m) (j : Nat) :
    (call k i op b).enabledAt j ↔
      if i = j then
        (Machine.step k op { motor := m, out := b.out, calls := b.calls }).motor.mEnabled = true
      else b.enabledAt j := by
  have hlt : i < b.motors.length := by
    rcases List.getElem?_eq_some.mp hm with ⟨h, _⟩
    exact h
  unfold enabledAt call
  simp only [hm, List.getElem?_set]
  by_cases hij : i = j
  · subst hij
    simp [hlt]
  · simp [hij]

theorem call_out (k : Constants) (i : Nat) (op : Op) (b : Board)
    (m : IfxMcsUniDirectionalMotor) (hm : b.motors[i]? = some m) :
    (call k i op b).out =
      (Machine.step k op { motor := m, out := b.out, calls := b.calls }).out := by
  simp [call, hm]

theorem owned_call (k : Constants) (i : Nat) (op : Op) (b : Board) (h : b.Owned) :
    (call k i op b).Owned := by
  cases hm : b.motors[i]? with
  | none => simpa [call, hm] using h
  | some m =>
    obtain ⟨h1, h2⟩ := h
    have hi : b.enabledAt i ↔ m.mEnabled = true := by
      simp [enabledAt, hm]
    have hen := enabledAt_call k i op b m hm
    have hout := call_out k i op b m hm
    rcases Machine.step_flags k op { motor := m, out := b.out, calls := b.calls } with
      ⟨he, ha⟩ | ⟨ha, he, ha2⟩ | ⟨he0, he, ha2⟩
    · -- flags unchanged
      have hsame : ∀ j, (call k i op b).enabledAt j ↔ b.enabledAt j := by
        intro j
        rw [hen j]
        by_cases hij : i = j
        · subst hij
          simp only [if_true, he, hi]
        · simp [hij]
      refine ⟨fun x y hx hy => h1 x y ((hsame x).mp hx) ((hsame y).mp hy), ?_⟩
      rw [hout, ha]
      simp only [hsame]
      exact h2
    · -- the claim is taken by motor i
      simp only at ha
      have hnone : ∀ j, ¬ b.enabledAt j := by
        intro j hj
        have := h2.mpr ⟨j, hj⟩
        rw [ha] at this
        exact Bool.false_ne_true this
      have honly : ∀ j, (call k i op b).enabledAt j ↔ i = j := by
        intro j
        rw [hen j]
        by_cases hij : i = j
        · subst hij
          simp [he]
        · simp [hij, hnone j]
      refine ⟨fun x y hx hy => ((honly x).mp hx).symm.trans ((honly y).mp hy), ?_⟩
      rw [hout, ha2]
      simp only [honly, true_iff]
      exact ⟨i, rfl⟩
    · -- the claim is released by motor i
      simp only at he0
      have hnone : ∀ j, ¬ (call k i op b).enabledAt j := by
        intro j
        rw [hen j]
        by_cases hij : i = j
        · subst hij
          simp [he]
        · simp only [hij, if_false]
          intro hj
          exact hij (h1 i j (hi.mpr he0) hj)
      refine ⟨fun x y hx _ => absurd hx (hnone x), ?_⟩
      rw [hout, ha2]
      constructor
      · intro hf
        exact absurd hf Bool.false_ne_true
      · rintro ⟨j, hj⟩
        exact absurd hj (hnone j)

theorem owned_run (k : Constants) (cs : List (Nat × Op)) (b : Board) (h : b.Owned) :
    (run k cs b).Owned := by
  induction cs generalizing b with
  | nil => exact h
  | cons c cs ih => exact ih _ (owned_call k c.1 c.2 b h)

end Board

namespace Machine

theorem run_append (k : Constants) (ops : List Op) (op : Op) (s : Machine) :
    run k (ops ++ [op]) s = step k op (run k ops s) := by
  induction ops generalizing s with
  | nil => rfl
  | cons o os ih => simpa [run] using ih (step k o s)

/-- A single motor object on a half-bridge nobody else uses: `mEnabled` and `active` agree. -/
theorem run_enabled_eq_active (k : Constants) (ops : List Op) (s : Machine)
    (h : s.motor.mEnabled = s.out.active) :
    (run k ops s).motor.mEnabled = (run k ops s).out.active := by
  induction ops generalizing s with
  | nil => exact h
  | cons o os ih =>
    apply ih
    rcases step_flags k o s with ⟨he, ha⟩ | ⟨_, he, ha⟩ | ⟨_, he, ha⟩
    · rw [he, ha, h]
    · rw [he, ha]
    · rw [he, ha]

end Machine

theorem hasOpenBegin_snoc_begin (ops : List Op) : HasOpenBegin (ops ++ [Op.begin]) :=
  ⟨ops, [], rfl, by simp⟩

theorem hasOpenBegin_snoc (ops : List Op) (op : Op) (hb : op ≠ Op.begin) :
    HasOpenBegin (ops ++ [op]) ↔ op ≠ Op.end_ ∧ HasOpenBegin ops := by
  constructor
  · rintro ⟨pre, post, heq, hpost⟩
    rcases List.eq_nil_or_concat post with hnil | ⟨post0, x, hx⟩
    · subst hnil
      have h2 : ops ++ [op] = pre ++ [Op.begin] := heq
      have h3 := List.append_inj' h2 rfl
      simp only [List.cons.injEq, and_true] at h3
      exact absurd h3.2 hb
    · subst hx
      have h2 : ops ++ [op] = (pre ++ Op.begin :: post0) ++ [x] := by
        rw [heq]
        simp
      have h3 := List.append_inj' h2 rfl
      simp only [List.cons.injEq, and_true] at h3
      obtain ⟨h4, h5⟩ := h3
      subst h5
      simp only [List.concat_eq_append, List.mem_append, List.mem_singleton, not_or] at hpost
      exact ⟨fun hc => hpost.2 hc.symm, pre, post0, h4, hpost.1⟩
  · rintro ⟨he, pre, post, heq, hpost⟩
    refine ⟨pre, post ++ [op], ?_, ?_⟩
    · rw [heq]
      simp
    · simp only [List.mem_append, List.mem_singleton, not_or]
      exact ⟨hpost, fun hc => he hc.symm⟩

theorem not_hasOpenBegin_nil : ¬ HasOpenBegin [] := by
  rintro ⟨pre, post, heq, _⟩
  cases pre <;> simp at heq

namespace Machine

/-- The value `update()` leaves in `mRunning`: it is cleared when the object is enabled
and the speed is below `IFX_MCS_LOWESTSPEED`, and kept otherwise. -/
theorem update_mRunning (k : Constants) (s : Machine) :
    (update k s).motor.mRunning =
      (s.motor.mRunning &&
        !(s.motor.mEnabled && decide (s.motor.mSpeed < k.IFX_MCS_LOWESTSPEED))) := by
  obtain ⟨⟨e, r, v⟩, o, cs⟩ := s
  by_cases hlo : v < k.IFX_MCS_LOWESTSPEED <;>
  by_cases hhi : v > k.IFX_MCS_HIGHESTSPEED <;>
  cases e <;> cases r <;>
  simp [update, setRunning, digitalWrite, pinMode, ouputHfPwm, hlo, hhi]

theorem step_runningImpliesEnabled (k : Constants) (op : Op) (s : Machine)
    (hs : op.isStart = true → s.motor.mEnabled = true) (h : s.RunningImpliesEnabled) :
    (step k op s).RunningImpliesEnabled := by
  obtain ⟨⟨e, r, v⟩, ⟨p1, p2, p3, a⟩, cs⟩ := s
  unfold RunningImpliesEnabled at h ⊢
  cases op <;> cases e <;> cases a <;>
  simp_all [step, begin, end_, start, startSpeed, stop, setSpeed, update_mRunning,
    update_mEnabled, update_mSpeed, setRunning, setSpeedField, setEnabled, setActive,
    pinMode, Op.isStart]

theorem run_append_list (k : Constants) (a b : List Op) (s : Machine) :
    run k (a ++ b) s = run k b (run k a s) := by
  induction a generalizing s with
  | nil => rfl
  | cons o os ih => simpa [run] using ih (step k o s)

theorem run_mEnabled_of_no_lifecycle (k : Constants) (ops : List Op) (s : Machine)
    (h : ∀ op ∈ ops, op ≠ Op.begin ∧ op ≠ Op.end_) :
    (run k ops s).motor.mEnabled = s.motor.mEnabled := by
  induction ops generalizing s with
  | nil => rfl
  | cons o os ih =>
    have ho := h o (List.mem_cons_self o os)
    simp only [run]
    rw [ih _ (fun op hop => h op (List.mem_cons_of_mem o hop)),
      (step_other_flags k o s ho.1 ho.2).1]

theorem setSpeed_mRunning (k : Constants) (w : Nat) (s : Machine)
    (he : s.motor.mEnabled = true) :
    (setSpeed k w s).motor.mRunning =
      (s.motor.mRunning && decide (k.IFX_MCS_LOWESTSPEED ≤ toUint8 w)) := by
  have hd : (!decide (toUint8 w < k.IFX_MCS_LOWESTSPEED)) =
      decide (k.IFX_MCS_LOWESTSPEED ≤ toUint8 w) := by
    by_cases h : toUint8 w < k.IFX_MCS_LOWESTSPEED
    · simp [h]
    · simp [h, Nat.le_of_not_lt h]
  simp [setSpeed, update_mRunning, setSpeedField, he, hd]

theorem setSpeed_mEnabled (k : Constants) (w : Nat) (s : Machine) :
    (setSpeed k w s).motor.mEnabled = s.motor.mEnabled := by
  simp [setSpeed, update_mEnabled, setSpeedField]

/-- After a run of `setSpeed` calls on an enabled channel, `mRunning` is still true exactly
when it was true before and no speed below `IFX_MCS_LOWESTSPEED` was set. -/
theorem run_setSpeeds_mRunning (k : Constants) (post : List Op) (s : Machine)
    (he : s.motor.mEnabled = true) (hpost : ∀ op ∈ post, ∃ w, op = Op.setSpeed w) :
    (run k post s).motor.mRunning = true ↔
      s.motor.mRunning = true ∧
        ∀ w, Op.setSpeed w ∈ post → k.IFX_MCS_LOWESTSPEED ≤ toUint8 w := by
  induction post generalizing s with
  | nil => simp [run]
  | cons o os ih =>
    obtain ⟨w, rfl⟩ := hpost o (List.mem_cons_self o os)
    have hrest := fun op hop => hpost op (List.mem_cons_of_mem _ hop)
    simp only [run, step]
    rw [ih (setSpeed k w s) (by rw [setSpeed_mEnabled, he]) hrest, setSpeed_mRunning k w s he]
    simp only [Bool.and_eq_true, decide_eq_true_eq, List.mem_cons, Op.setSpeed.injEq]
    constructor
    · rintro ⟨⟨hr, hw⟩, hall⟩
      refine ⟨hr, ?_⟩
      rintro x (hx | hx)
      · rw [hx]
        exact hw
      · exact hall x hx
    · rintro ⟨hr, hall⟩
      exact ⟨⟨hr, hall w (Or.inl rfl)⟩, fun x hx => hall x (Or.inr hx)⟩

/-- On an enabled channel a `start`/`stop` call leaves `mRunning` true exactly when it is
a `start` and the speed it leaves is not below `IFX_MCS_LOWESTSPEED`. -/
theorem step_startStop_mRunning (k : Constants) (c : Op) (s : Machine)
    (he : s.motor.mEnabled = true)
    (hc : c.isStart = true ∨ c = Op.stop) :
    (step k c s).motor.mRunning = true ↔
      c.isStart = true ∧ k.IFX_MCS_LOWESTSPEED ≤ (step k c s).motor.mSpeed := by
  cases c <;> simp only [Op.isStart, reduceCtorEq, or_self, or_false, or_true] at hc <;>
  simp [step, start, startSpeed, stop, setSpeed, update_mRunning, update_mEnabled,
    update_mSpeed, setRunning, setSpeedField, Op.isStart, he]

end Machine

namespace Machine

/-- The state a successful `begin()` leaves, the issued calls apart. -/
theorem begin_free_state (k : Constants) (s : Machine) (h : s.out.active = false) :
    ∃ cs, (begin k s).2 =
      { motor := { mEnabled := true, mRunning := false,
                   mSpeed := toUint8 k.IFX_MCS_INITIALSPEED },
        out := { s.out with active := true },
        calls := cs } := by
  obtain ⟨⟨e, r, v⟩, ⟨p1, p2, p3, a⟩, cs⟩ := s
  simp only at h
  subst h
  by_cases hlo : k.IFX_MCS_INITIALSPEED % 256 < k.IFX_MCS_LOWESTSPEED <;>
  by_cases hhi : k.IFX_MCS_INITIALSPEED % 256 > k.IFX_MCS_HIGHESTSPEED <;>
  cases r <;>
  simp [begin, setSpeed, stop, update, setActive, setEnabled, pinMode, digitalWrite,
    ouputHfPwm, setRunning, setSpeedField, hlo, hhi, toUint8]

end Machine

namespace Machine

theorem end_mEnabled (k : Constants) (s : Machine) : (end_ k s).motor.mEnabled = false := by
  cases he : s.motor.mEnabled
  · simp [end_, he]
  · simp [end_, he, setEnabled]

/-- After `update()` on an enabled channel whose drive and inhibit pins differ, the
outputs reflect the state. -/
theorem update_reflects (k : Constants) (t : Machine) (he : t.motor.mEnabled = true)
    (hp : t.out.pinIn ≠ t.out.pinInh) : OutputsReflect k (update k t) := by
  obtain ⟨⟨e, r, v⟩, ⟨p1, p2, p3, a⟩, cs⟩ := t
  simp only at he hp
  subst he
  have hp2 : ¬ p2 = p1 := fun h => hp h.symm
  by_cases hlo : v < k.IFX_MCS_LOWESTSPEED <;>
  by_cases hhi : v > k.IFX_MCS_HIGHESTSPEED <;>
  cases r <;>
  simp [OutputsReflect, update, setRunning, digitalWrite, pinMode, ouputHfPwm, lastDrive,
    driveOf, List.foldl_append, hlo, hhi, hp, hp2]

theorem update_reflects_of_enabled (k : Constants) (t : Machine)
    (hp : t.out.pinIn ≠ t.out.pinInh) :
    (update k t).motor.mEnabled = true → OutputsReflect k (update k t) := by
  intro he
  rw [update_mEnabled] at he
  exact update_reflects k t he hp

/-- One method call keeps: whenever the channel is enabled, the outputs reflect the state. -/
theorem step_reflects (k : Constants) (op : Op) (s : Machine)
    (hp : s.out.pinIn ≠ s.out.pinInh)
    (h : s.motor.mEnabled = true → OutputsReflect k s) :
    (step k op s).motor.mEnabled = true → OutputsReflect k (step k op s) := by
  cases op with
  | begin =>
    by_cases ha : s.out.active = true
    · simpa [step, begin, ha] using h
    · have hb : (begin k s).2 = update k ((setSpeed k k.IFX_MCS_INITIALSPEED
          (((((s.setActive true).setEnabled true).pinMode s.out.pinIn PinMode.OUTPUT).pinMode
            s.out.pinInh PinMode.OUTPUT).pinMode s.out.pinIs PinMode.INPUT)).setRunning false) := by
        simp [begin, ha, stop, setActive, setEnabled, pinMode]
      simp only [step]
      rw [hb]
      apply update_reflects_of_enabled
      simpa [setSpeed, update_out, setRunning, setSpeedField, setActive, setEnabled, pinMode]
        using hp
  | end_ =>
    intro he
    simp only [step, end_mEnabled] at he
    exact absurd he (by decide)
  | start =>
    simp only [step, start]
    apply update_reflects_of_enabled
    simpa [setRunning] using hp
  | startSpeed v =>
    simp only [step, startSpeed, start]
    apply update_reflects_of_enabled
    simpa [setSpeed, update_out, setRunning, setSpeedField] using hp
  | stop =>
    simp only [step, stop]
    apply update_reflects_of_enabled
    simpa [setRunning] using hp
  | setSpeed v =>
    simp only [step, setSpeed]
    apply update_reflects_of_enabled
    simpa [setSpeedField] using hp

theorem step_pins (k : Constants) (op : Op) (s : Machine) :
    (step k op s).out.pinIn = s.out.pinIn ∧ (step k op s).out.pinInh = s.out.pinInh := by
  cases op with
  | begin =>
    by_cases ha : s.out.active = true <;>
    simp [step, begin, ha, stop, setSpeed, update_out, setRunning, setSpeedField,
      setActive, setEnabled, pinMode]
  | end_ =>
    by_cases he : s.motor.mEnabled = false <;>
    simp [step, end_, he, stop, update_out, setRunning, setActive, setEnabled]
  | start => simp [step, start, update_out, setRunning]
  | startSpeed v =>
    simp [step, start, startSpeed, setSpeed, update_out, setRunning, setSpeedField]
  | stop => simp [step, stop, update_out, setRunning]
  | setSpeed v => simp [step, setSpeed, update_out, setSpeedField]

theorem run_reflects (k : Constants) (ops : List Op) (s : Machine)
    (hp : s.out.pinIn ≠ s.out.pinInh)
    (h : s.motor.mEnabled = true → OutputsReflect k s) :
    (run k ops s).motor.mEnabled = true → OutputsReflect k (run k ops s) := by
  induction ops generalizing s with
  | nil => exact h
  | cons o os ih =>
    apply ih
    · rw [(step_pins k o s).1, (step_pins k o s).2]
      exact hp
    · exact step_reflects k o s hp h

end Machine

theorem issuesInRange_refl (k : Constants) (s : Machine) : IssuesInRange k s s :=
  ⟨[], by simp, by simp [PwmInRange]⟩

theorem issuesInRange_trans (k : Constants) (s t u : Machine)
    (h1 : IssuesInRange k s t) (h2 : IssuesInRange k t u) : IssuesInRange k s u := by
  obtain ⟨n1, e1, r1⟩ := h1
  obtain ⟨n2, e2, r2⟩ := h2
  refine ⟨n1 ++ n2, by rw [e2, e1, List.append_assoc], ?_⟩
  intro p i hi
  rcases List.mem_append.mp hi with h | h
  · exact r1 p i h
  · exact r2 p i h

theorem issuesInRange_of_calls_eq (k : Constants) (s t u : Machine)
    (h : IssuesInRange k s t) (hc : u.calls = t.calls) : IssuesInRange k s u := by
  obtain ⟨n, e, r⟩ := h
  exact ⟨n, by rw [hc, e], r⟩

theorem issuesInRange_pinMode (k : Constants) (s t : Machine) (pin : Nat) (mode : PinMode)
    (h : IssuesInRange k s t) : IssuesInRange k s (t.pinMode pin mode) := by
  apply issuesInRange_trans k s t _ h
  exact ⟨[PlatformCall.pinMode pin mode], rfl, by simp [PwmInRange]⟩

/-- The calls one `update()` issues have their PWM duty cycle in range. -/
theorem issuesInRange_update (k : Constants) (s t : Machine) (h : IssuesInRange k s t) :
    IssuesInRange k s (Machine.update k t) := by
  apply issuesInRange_trans k s t _ h
  obtain ⟨⟨e, r, v⟩, o, cs⟩ := t
  cases e with
  | false => exact ⟨[], by simp [Machine.update], by simp [PwmInRange]⟩
  | true =>
    by_cases hlo : v < k.IFX_MCS_LOWESTSPEED
    · exact ⟨offCalls o,
        by simp [Machine.update, Machine.setRunning, Machine.digitalWrite, Machine.pinMode,
          offCalls, hlo],
        by simp [PwmInRange, offCalls]⟩
    · cases r with
      | false =>
        exact ⟨offCalls o,
          by simp [Machine.update, Machine.setRunning, Machine.digitalWrite, Machine.pinMode,
            offCalls, hlo],
          by simp [PwmInRange, offCalls]⟩
      | true =>
        by_cases hhi : v > k.IFX_MCS_HIGHESTSPEED
        · exact ⟨[PlatformCall.pinMode o.pinIn PinMode.OUTPUT,
              PlatformCall.digitalWrite o.pinIn PinLevel.HIGH,
              PlatformCall.digitalWrite o.pinInh PinLevel.HIGH],
            by simp [Machine.update, Machine.setRunning, Machine.digitalWrite,
              Machine.pinMode, hlo, hhi],
            by simp [PwmInRange]⟩
        · refine ⟨[PlatformCall.ouputHfPwm o.pinIn v,
              PlatformCall.digitalWrite o.pinInh PinLevel.HIGH],
            by simp [Machine.update, Machine.setRunning, Machine.digitalWrite,
              Machine.ouputHfPwm, hlo, hhi], ?_⟩
          intro p i hi
          simp only [List.mem_cons, PlatformCall.ouputHfPwm.injEq, reduceCtorEq,
            List.mem_singleton, List.not_mem_nil, or_false] at hi
          rw [hi.2]
          exact ⟨Nat.le_of_not_lt hlo, Nat.le_of_not_lt hhi⟩

theorem issuesInRange_step (k : Constants) (op : Op) (s : Machine) :
    IssuesInRange k s (Machine.step k op s) := by
  have h0 := issuesInRange_refl k s
  cases op with
  | begin =>
    by_cases ha : s.out.active = true
    · simpa [Machine.step, Machine.begin, ha] using h0
    · simp only [Machine.step, Machine.begin, ha, if_false, Machine.stop, Machine.setSpeed]
      apply issuesInRange_update
      apply issuesInRange_of_calls_eq k s _ _ _ rfl
      apply issuesInRange_update
      apply issuesInRange_of_calls_eq k s _ _ _ rfl
      apply issuesInRange_pinMode
      apply issuesInRange_pinMode
      apply issuesInRange_pinMode
      exact issuesInRange_of_calls_eq k s s _ h0 rfl
  | end_ =>
    by_cases he : s.motor.mEnabled = false
    · simpa [Machine.step, Machine.end_, he] using h0
    · simp only [Machine.step, Machine.end_, he, if_false, Machine.stop]
      apply issuesInRange_of_calls_eq k s _ _ _ rfl
      apply issuesInRange_update
      exact issuesInRange_of_calls_eq k s s _ h0 rfl
  | start =>
    simp only [Machine.step, Machine.start]
    apply issuesInRange_update
    exact issuesInRange_of_calls_eq k s s _ h0 rfl
  | startSpeed v =>
    simp only [Machine.step, Machine.startSpeed, Machine.start, Machine.setSpeed]
    apply issuesInRange_update
    apply issuesInRange_of_calls_eq k s _ _ _ rfl
    apply issuesInRange_update
    exact issuesInRange_of_calls_eq k s s _ h0 rfl
  | stop =>
    simp only [Machine.step, Machine.stop]
    apply issuesInRange_update
    exact issuesInRange_of_calls_eq k s s _ h0 rfl
  | setSpeed v =>
    simp only [Machine.step, Machine.setSpeed]
    apply issuesInRange_update
    exact issuesInRange_of_calls_eq k s s _ h0 rfl

theorem issuesInRange_run (k : Constants) (ops : List Op) (s : Machine) :
    IssuesInRange k s (Machine.run k ops s) := by
  induction ops generalizing s with
  | nil => exact issuesInRange_refl k s
  | cons o os ih =>
    exact issuesInRange_trans k s _ _ (issuesInRange_step k o s) (ih (Machine.step k o s))

namespace Machine

/-- A successful `begin()` runs `update()` twice: once in `setSpeed`, once in `stop`. -/
theorem begin_free_two_updates (k : Constants) (s : Machine) (h : s.out.active = false) :
    (begin k s).2 = update k ((update k (beginBeforeUpdate k s)).setRunning false) := by
  simp [begin, h, stop, setSpeed, beginBeforeUpdate]

theorem beginBeforeUpdate_update_calls (k : Constants) (s : Machine) :
    (update k (beginBeforeUpdate k s)).calls =
      s.calls ++ beginPinModes s.out ++ beginFirstUpdateCalls k s.out s.motor.mRunning := by
  obtain ⟨⟨e, r, v⟩, ⟨p1, p2, p3, a⟩, cs⟩ := s
  by_cases hlo : k.IFX_MCS_INITIALSPEED % 256 < k.IFX_MCS_LOWESTSPEED <;>
  by_cases hhi : k.IFX_MCS_INITIALSPEED % 256 > k.IFX_MCS_HIGHESTSPEED <;>
  cases r <;>
  simp [beginBeforeUpdate, update, setActive, setEnabled, pinMode, digitalWrite,
    ouputHfPwm, setRunning, setSpeedField, toUint8, beginPinModes, beginFirstUpdateCalls,
    offCalls, hlo, hhi]

/-- The calls a successful `begin()` issues. -/
theorem begin_free_calls (k : Constants) (s : Machine) (h : s.out.active = false) :
    (begin k s).2.calls =
      s.calls ++ beginPinModes s.out ++ beginFirstUpdateCalls k s.out s.motor.mRunning ++
        offCalls s.out := by
  rw [← beginBeforeUpdate_update_calls]
  obtain ⟨⟨e, r, v⟩, ⟨p1, p2, p3, a⟩, cs⟩ := s
  simp only at h
  subst h
  by_cases hlo : k.IFX_MCS_INITIALSPEED % 256 < k.IFX_MCS_LOWESTSPEED <;>
  by_cases hhi : k.IFX_MCS_INITIALSPEED % 256 > k.IFX_MCS_HIGHESTSPEED <;>
  cases r <;>
  simp [begin, stop, setSpeed, beginBeforeUpdate, update, setActive, setEnabled, pinMode,
    digitalWrite, ouputHfPwm, setRunning, setSpeedField, toUint8, offCalls, hlo, hhi]

/-- One `update()` issues at most three calls. -/
theorem update_issues_at_most_three (k : Constants) (t : Machine) :
    ((update k t).calls.drop t.calls.length).length ≤ 3 := by
  obtain ⟨⟨e, r, v⟩, o, cs⟩ := t
  by_cases hlo : v < k.IFX_MCS_LOWESTSPEED <;>
  by_cases hhi : v > k.IFX_MCS_HIGHESTSPEED <;>
  cases e <;> cases r <;>
  simp [update, setRunning, digitalWrite, pinMode, ouputHfPwm, hlo, hhi]

end Machine

/-- What the constructor establishes: `mEnabled` false and `mSpeed` zero, with `mRunning`
left as the storage held it. -/
theorem construct_fields (prior : IfxMcsUniDirectionalMotor) :
    prior.construct.mEnabled = false ∧ prior.construct.mSpeed = 0 ∧
    prior.construct.mRunning = prior.mRunning := by
  simp [IfxMcsUniDirectionalMotor.construct]

/-- For zero-initialised storage, as that of the two pre-instantiated objects, the
constructed state is `mEnabled = false`, `mRunning = false`, `mSpeed = 0`. -/
theorem freshMotor_fields :
    freshMotor.mEnabled = false ∧ freshMotor.mRunning = false ∧ freshMotor.mSpeed = 0 := by
  decide

/-- When `mRunning` is false at the call, or `IFX_MCS_INITIALSPEED` is below
`IFX_MCS_LOWESTSPEED`, a successful `begin()` issues the three pin configurations and the
off-state sequence twice: no write of HIGH and no PWM call. -/
theorem begin_free_calls_stopped (k : Constants) (s : Machine) (h : s.out.active = false)
    (hr : s.motor.mRunning = false ∨
      Machine.toUint8 k.IFX_MCS_INITIALSPEED < k.IFX_MCS_LOWESTSPEED) :
    (Machine.begin k s).2.calls =
      s.calls ++ beginPinModes s.out ++ offCalls s.out ++ offCalls s.out := by
  rw [Machine.begin_free_calls k s h]
  simp [beginFirstUpdateCalls, hr]

/-! ## Theorems -/

/-- C1: when the descriptor is already claimed (`active` true), `begin()` returns
true (failure) and returns the whole state unchanged: the fields `mEnabled`,
`mRunning`, `mSpeed`, the flag `active` and the list of platform calls are what
they were.  This holds whoever holds the claim, the calling channel included. -/
theorem begin_claimed_fails (k : Constants) (s : Machine) (h : s.out.active = true) :
    (Machine.begin k s).1 = true ∧ (Machine.begin k s).2 = s ∧
    (Machine.begin k s).2.motor.mEnabled = s.motor.mEnabled ∧
    (Machine.begin k s).2.motor.mRunning = s.motor.mRunning ∧
    (Machine.begin k s).2.motor.mSpeed = s.motor.mSpeed ∧
    (Machine.begin k s).2.out.active = s.out.active ∧
    (Machine.begin k s).2.calls = s.calls := by
  simp [Machine.begin, h]

/-- Concrete instance of C1: the claim held by another channel, and by the caller itself. -/
theorem begin_claimed_fails_witness :
    (sampleOut true).active = true ∧
    (Machine.begin sampleConstants ⟨⟨false, true, 9⟩, sampleOut true, []⟩).1 = true ∧
    (Machine.begin sampleConstants ⟨⟨true, true, 200⟩, sampleOut true, []⟩).2
      = ⟨⟨true, true, 200⟩, sampleOut true, []⟩ :=
  ⟨rfl,
   (begin_claimed_fails sampleConstants ⟨⟨false, true, 9⟩, sampleOut true, []⟩ rfl).1,
   (begin_claimed_fails sampleConstants ⟨⟨true, true, 200⟩, sampleOut true, []⟩ rfl).2.1⟩

/-- C2: when the descriptor is unclaimed (`active` false), whatever `mEnabled`,
`mRunning` and `mSpeed` were, `begin()` returns false (success) and leaves
`active = true`, `mEnabled = true`, `mRunning = false` and
`mSpeed = IFX_MCS_INITIALSPEED` (the constant being a `uint8_t` value); the calls it
issues start with `pinMode(pinIn, OUTPUT)`, `pinMode(pinInh, OUTPUT)`,
`pinMode(pinIs, INPUT)`, and the pin numbers of the descriptor are unchanged. -/
theorem begin_unclaimed_succeeds (k : Constants) (s : Machine)
    (h : s.out.active = false) (hk : k.IFX_MCS_INITIALSPEED < 256) :
    (Machine.begin k s).1 = false ∧
    (Machine.begin k s).2.out.active = true ∧
    (Machine.begin k s).2.motor.mEnabled = true ∧
    (Machine.begin k s).2.motor.mRunning = false ∧
    (Machine.begin k s).2.motor.mSpeed = k.IFX_MCS_INITIALSPEED ∧
    (Machine.begin k s).2.out.pinIn = s.out.pinIn ∧
    (Machine.begin k s).2.out.pinInh = s.out.pinInh ∧
    (Machine.begin k s).2.out.pinIs = s.out.pinIs ∧
    ∃ rest, (Machine.begin k s).2.calls =
      s.calls ++ [PlatformCall.pinMode s.out.pinIn PinMode.OUTPUT,
                  PlatformCall.pinMode s.out.pinInh PinMode.OUTPUT,
                  PlatformCall.pinMode s.out.pinIs PinMode.INPUT] ++ rest := by
  have h8 : k.IFX_MCS_INITIALSPEED % 256 = k.IFX_MCS_INITIALSPEED := Nat.mod_eq_of_lt hk
  obtain ⟨⟨e, r, v⟩, ⟨p1, p2, p3, a⟩, cs⟩ := s
  simp only at h
  subst h
  by_cases hlo : k.IFX_MCS_INITIALSPEED < k.IFX_MCS_LOWESTSPEED <;>
  by_cases hhi : k.IFX_MCS_INITIALSPEED > k.IFX_MCS_HIGHESTSPEED <;>
  cases r <;>
  simp [Machine.begin, Machine.setSpeed, Machine.stop, Machine.update, Machine.setActive,
    Machine.setEnabled, Machine.pinMode, Machine.digitalWrite, Machine.ouputHfPwm,
    Machine.setRunning, Machine.setSpeedField, Machine.toUint8, h8, hlo, hhi]

/-- Concrete instance of C2 with a prior state that has `mRunning` true. -/
theorem begin_unclaimed_succeeds_witness :
    (sampleOut false).active = false ∧ sampleConstants.IFX_MCS_INITIALSPEED < 256 ∧
    (Machine.begin sampleConstants ⟨⟨false, true, 9⟩, sampleOut false, []⟩).1 = false ∧
    (Machine.begin sampleConstants ⟨⟨false, true, 9⟩, sampleOut false, []⟩).2.motor
      = ⟨true, false, 127⟩ :=
  have w := begin_unclaimed_succeeds sampleConstants ⟨⟨false, true, 9⟩, sampleOut false, []⟩
    rfl (by decide)
  ⟨rfl, by decide, w.1, by decide⟩

/-- C3: ownership invariant.  Any number of motor objects are constructed on one
half-bridge whose `active` flag is false.  After every finite interleaved sequence
of `begin`/`end`/`start`/`stop`/`setSpeed` calls on them, at most one object has
`mEnabled` true, and `active` is true if and only if some object has `mEnabled` true. -/
theorem ownership_invariant (k : Constants) (priors : List IfxMcsUniDirectionalMotor)
    (out : Halfbridge) (calls : List PlatformCall) (cs : List (Nat × Op))
    (h : out.active = false) :
    (∀ i j, (Board.run k cs ⟨priors.map IfxMcsUniDirectionalMotor.construct, out, calls⟩).enabledAt i →
      (Board.run k cs ⟨priors.map IfxMcsUniDirectionalMotor.construct, out, calls⟩).enabledAt j →
      i = j) ∧
    ((Board.run k cs ⟨priors.map IfxMcsUniDirectionalMotor.construct, out, calls⟩).out.active = true ↔
      ∃ m ∈ (Board.run k cs ⟨priors.map IfxMcsUniDirectionalMotor.construct, out, calls⟩).motors,
        m.mEnabled = true) := by
  have h0 : (Board.mk (priors.map IfxMcsUniDirectionalMotor.construct) out calls).Owned := by
    have hnone : ∀ i, ¬ (Board.mk (priors.map IfxMcsUniDirectionalMotor.construct) out
        calls).enabledAt i := by
      rintro i ⟨m, hm, hen⟩
      simp only [List.getElem?_map] at hm
      cases hp : priors[i]? with
      | none => simp [hp] at hm
      | some p =>
        simp only [hp, Option.map_some', Option.some.injEq] at hm
        subst hm
        simp [IfxMcsUniDirectionalMotor.construct] at hen
    refine ⟨fun x _ hx _ => absurd hx (hnone x), ?_⟩
    simp only [h]
    constructor
    · intro hf
      exact absurd hf Bool.false_ne_true
    · rintro ⟨j, hj⟩
      exact absurd hj (hnone j)
  have hr := Board.owned_run k cs _ h0
  refine ⟨hr.1, hr.2.trans ?_⟩
  constructor
  · rintro ⟨i, m, hm, hen⟩
    exact ⟨m, List.mem_iff_getElem?.mpr ⟨i, hm⟩, hen⟩
  · rintro ⟨m, hm, hen⟩
    obtain ⟨i, hi⟩ := List.mem_iff_getElem?.mp hm
    exact ⟨i, m, hi, hen⟩

/-- Concrete instance of C3 with two motor objects on one half-bridge. -/
theorem ownership_invariant_witness :
    (sampleOut false).active = false ∧
    ((Board.run sampleConstants
        [(0, Op.begin), (1, Op.begin), (0, Op.startSpeed 200), (1, Op.end_), (0, Op.end_),
         (1, Op.begin), (0, Op.begin), (1, Op.start)]
        ⟨[zeroStorage, zeroStorage].map IfxMcsUniDirectionalMotor.construct,
          sampleOut false, []⟩).out.active = true ↔
      ∃ m ∈ (Board.run sampleConstants
        [(0, Op.begin), (1, Op.begin), (0, Op.startSpeed 200), (1, Op.end_), (0, Op.end_),
         (1, Op.begin), (0, Op.begin), (1, Op.start)]
        ⟨[zeroStorage, zeroStorage].map IfxMcsUniDirectionalMotor.construct,
          sampleOut false, []⟩).motors, m.mEnabled = true) ∧
    (Board.run sampleConstants
        [(0, Op.begin), (1, Op.begin), (0, Op.startSpeed 200), (1, Op.end_), (0, Op.end_),
         (1, Op.begin), (0, Op.begin), (1, Op.start)]
        ⟨[zeroStorage, zeroStorage].map IfxMcsUniDirectionalMotor.construct,
          sampleOut false, []⟩).motors.map (fun m => m.mEnabled) = [false, true] :=
  ⟨rfl,
   (ownership_invariant sampleConstants [zeroStorage, zeroStorage] (sampleOut false) []
      [(0, Op.begin), (1, Op.begin), (0, Op.startSpeed 200), (1, Op.end_), (0, Op.end_),
       (1, Op.begin), (0, Op.begin), (1, Op.start)] rfl).2,
   by decide⟩

/-- C4: a single motor object is constructed on a half-bridge whose `active` flag is
false.  After every finite sequence of `begin`/`end`/`start`/`stop`/`setSpeed` calls,
`getEnabled()` is true if and only if the sequence contains a `begin()` with no
`end()` after it.  Moreover `start()`, `start(speed)`, `stop()` and `setSpeed(speed)`
change neither `mEnabled` nor `active`, in any state. -/
theorem enabled_iff_open_begin (k : Constants) (prior : IfxMcsUniDirectionalMotor)
    (out : Halfbridge) (calls : List PlatformCall) (ops : List Op)
    (h : out.active = false) :
    ((Machine.run k ops ⟨prior.construct, out, calls⟩).getEnabled = true ↔ HasOpenBegin ops) ∧
    (∀ (t : Machine) (v : Nat),
      ((Machine.start k t).motor.mEnabled = t.motor.mEnabled ∧
        (Machine.start k t).out.active = t.out.active) ∧
      ((Machine.startSpeed k v t).motor.mEnabled = t.motor.mEnabled ∧
        (Machine.startSpeed k v t).out.active = t.out.active) ∧
      ((Machine.stop k t).motor.mEnabled = t.motor.mEnabled ∧
        (Machine.stop k t).out.active = t.out.active) ∧
      ((Machine.setSpeed k v t).motor.mEnabled = t.motor.mEnabled ∧
        (Machine.setSpeed k v t).out.active = t.out.active)) := by
  constructor
  · induction ops using List.reverseRecOn with
    | nil =>
      simp [Machine.run, Machine.getEnabled, IfxMcsUniDirectionalMotor.construct,
        not_hasOpenBegin_nil]
    | append_singleton ops op ih =>
      have hinv := Machine.run_enabled_eq_active k ops ⟨prior.construct, out, calls⟩
        (by simp [IfxMcsUniDirectionalMotor.construct, h])
      rw [Machine.run_append]
      simp only [Machine.getEnabled] at ih ⊢
      generalize Machine.run k ops ⟨prior.construct, out, calls⟩ = s at ih hinv ⊢
      by_cases hb : op = Op.begin
      · subst hb
        simp only [hasOpenBegin_snoc_begin, iff_true]
        cases ha : s.out.active
        · exact (Machine.begin_free_flags k s ha).1
        · simp [Machine.step, Machine.begin, ha, hinv]
      · rw [hasOpenBegin_snoc ops op hb]
        by_cases he : op = Op.end_
        · subst he
          simp only [ne_eq, not_true_eq_false, false_and, iff_false, Bool.not_eq_true]
          cases hen : s.motor.mEnabled
          · simp [Machine.step, Machine.end_, hen]
          · exact (Machine.end_enabled_flags k s hen).1
        · rw [(Machine.step_other_flags k op s hb he).1, ih]
          simp [he]
  · intro t v
    have h1 := Machine.step_other_flags k Op.start t (by simp) (by simp)
    have h2 := Machine.step_other_flags k (Op.startSpeed v) t (by simp) (by simp)
    have h3 := Machine.step_other_flags k Op.stop t (by simp) (by simp)
    have h4 := Machine.step_other_flags k (Op.setSpeed v) t (by simp) (by simp)
    simp only [Machine.step] at h1 h2 h3 h4
    exact ⟨⟨h1.1, by rw [h1.2]⟩, ⟨h2.1, by rw [h2.2]⟩, ⟨h3.1, by rw [h3.2]⟩,
      ⟨h4.1, by rw [h4.2]⟩⟩

/-- Concrete instance of C4, with a sequence that ends enabled and a prefix of it that does not. -/
theorem enabled_iff_open_begin_witness :
    (sampleOut false).active = false ∧
    ((Machine.run sampleConstants
        [Op.start, Op.begin, Op.setSpeed 3, Op.end_, Op.stop, Op.begin, Op.startSpeed 200]
        ⟨freshMotor, sampleOut false, []⟩).getEnabled = true ↔
      HasOpenBegin
        [Op.start, Op.begin, Op.setSpeed 3, Op.end_, Op.stop, Op.begin, Op.startSpeed 200]) ∧
    (Machine.run sampleConstants
        [Op.start, Op.begin, Op.setSpeed 3, Op.end_, Op.stop, Op.begin, Op.startSpeed 200]
        ⟨freshMotor, sampleOut false, []⟩).getEnabled = true ∧
    (Machine.run sampleConstants [Op.start, Op.begin, Op.setSpeed 3, Op.end_, Op.stop]
        ⟨freshMotor, sampleOut false, []⟩).getEnabled = false :=
  ⟨rfl,
   (enabled_iff_open_begin sampleConstants zeroStorage (sampleOut false) []
      [Op.start, Op.begin, Op.setSpeed 3, Op.end_, Op.stop, Op.begin, Op.startSpeed 200]
      rfl).1,
   by decide, by decide⟩

/-- C5, refuted as stated: on a freshly constructed channel (`mEnabled = false`,
`mRunning = false`, `mSpeed = 0`) the single call `start()` leaves `mRunning` true
while `mEnabled` is still false. -/
theorem running_implies_enabled_counterexample :
    ¬ ((Machine.run sampleConstants [Op.start] ⟨freshMotor, sampleOut false, []⟩).getRunning
          = true →
        (Machine.run sampleConstants [Op.start] ⟨freshMotor, sampleOut false, []⟩).getEnabled
          = true) := by
  decide

/-- C5, amended: in every state reached from a freshly constructed channel
(`mEnabled = false`, `mRunning = false`, `mSpeed = 0`) by a finite sequence of
`begin`/`end`/`start`/`stop`/`setSpeed` calls in which each `start` call is made while
the channel is enabled, `mRunning` true implies `mEnabled` true. -/
theorem running_implies_enabled (k : Constants) (out : Halfbridge)
    (calls : List PlatformCall) (ops : List Op)
    (hs : startsWhileEnabled k ops ⟨freshMotor, out, calls⟩ = true) :
    (Machine.run k ops ⟨freshMotor, out, calls⟩).getRunning = true →
    (Machine.run k ops ⟨freshMotor, out, calls⟩).getEnabled = true := by
  have key : ∀ (ops : List Op) (s : Machine), startsWhileEnabled k ops s = true →
      s.RunningImpliesEnabled → (Machine.run k ops s).RunningImpliesEnabled := by
    intro ops
    induction ops with
    | nil => intro s _ h; exact h
    | cons o os ih =>
      intro s hstart h
      simp only [startsWhileEnabled, Bool.and_eq_true, Bool.or_eq_true,
        Bool.not_eq_eq_eq_not, Bool.not_true] at hstart
      apply ih _ hstart.2
      apply Machine.step_runningImpliesEnabled k o s _ h
      intro hst
      rcases hstart.1 with h1 | h1
      · rw [hst] at h1
        exact absurd h1 (by decide)
      · exact h1
  exact key ops _ hs (by simp [Machine.RunningImpliesEnabled, freshMotor, zeroStorage,
    IfxMcsUniDirectionalMotor.construct])

/-- Concrete instance of the amended C5. -/
theorem running_implies_enabled_witness :
    startsWhileEnabled sampleConstants
      [Op.setSpeed 9, Op.begin, Op.startSpeed 200, Op.setSpeed 250, Op.stop, Op.start]
      ⟨freshMotor, sampleOut false, []⟩ = true ∧
    (Machine.run sampleConstants
      [Op.setSpeed 9, Op.begin, Op.startSpeed 200, Op.setSpeed 250, Op.stop, Op.start]
      ⟨freshMotor, sampleOut false, []⟩).getRunning = true ∧
    (Machine.run sampleConstants
      [Op.setSpeed 9, Op.begin, Op.startSpeed 200, Op.setSpeed 250, Op.stop, Op.start]
      ⟨freshMotor, sampleOut false, []⟩).getEnabled = true :=
  ⟨by decide, by decide,
   running_implies_enabled sampleConstants (sampleOut false) []
     [Op.setSpeed 9, Op.begin, Op.startSpeed 200, Op.setSpeed 250, Op.stop, Op.start]
     (by decide) (by decide)⟩

/-- C6: on an enabled channel, for every 8-bit `s` below `IFX_MCS_LOWESTSPEED`,
after `setSpeed(s)` `getRunning()` is false, whatever `mRunning` was, and
`getSpeed()` is `s`. -/
theorem setSpeed_below_lowest (k : Constants) (t : Machine) (s : Nat)
    (he : t.motor.mEnabled = true) (h8 : s < 256) (hlo : s < k.IFX_MCS_LOWESTSPEED) :
    (Machine.setSpeed k s t).getRunning = false ∧ (Machine.setSpeed k s t).getSpeed = s := by
  have hs : s % 256 = s := Nat.mod_eq_of_lt h8
  simp [Machine.getRunning, Machine.getSpeed, Machine.setSpeed, Machine.update_mRunning,
    Machine.update_mSpeed, Machine.setSpeedField, Machine.toUint8, hs, he, hlo]

/-- Concrete instance of C6 on a running channel. -/
theorem setSpeed_below_lowest_witness :
    (3 : Nat) < 256 ∧ 3 < sampleConstants.IFX_MCS_LOWESTSPEED ∧
    (Machine.setSpeed sampleConstants 3 ⟨⟨true, true, 200⟩, sampleOut true, []⟩).getRunning
      = false ∧
    (Machine.setSpeed sampleConstants 3 ⟨⟨true, true, 200⟩, sampleOut true, []⟩).getSpeed = 3 :=
  ⟨by decide, by decide,
   setSpeed_below_lowest sampleConstants ⟨⟨true, true, 200⟩, sampleOut true, []⟩ 3 rfl
     (by decide) (by decide)⟩

/-- C7, refuted as stated: after a successful `begin()`, the calls `start()`,
`setSpeed(0)` and then `setSpeed(200)` with `200 >= IFX_MCS_LOWESTSPEED` leave
`getRunning()` false although the most recent `start`/`stop` call was a `start`. -/
theorem running_reflects_last_call_counterexample :
    (Machine.begin sampleConstants ⟨freshMotor, sampleOut false, []⟩).1 = false ∧
    lastStartStop [Op.start, Op.setSpeed 0] = some true ∧
    sampleConstants.IFX_MCS_LOWESTSPEED ≤ 200 ∧
    (Machine.run sampleConstants ([Op.start, Op.setSpeed 0] ++ [Op.setSpeed 200])
      (Machine.begin sampleConstants ⟨freshMotor, sampleOut false, []⟩).2).getRunning
      = false := by
  decide

/-- C7, amended: after a successful `begin()`, let a sequence of `start`/`stop`/`setSpeed`
calls have `c` as its most recent `start`/`stop` call (only `setSpeed` calls follow `c`).
For every 8-bit `v >= IFX_MCS_LOWESTSPEED`, after a further `setSpeed(v)`,
`getRunning()` is true if and only if `c` is a `start`, the speed in effect when `c`
returned is at least `IFX_MCS_LOWESTSPEED`, and every speed set after `c` is at least
`IFX_MCS_LOWESTSPEED`.  In particular it is false when `c` is a `stop`. -/
theorem running_reflects_last_call (k : Constants) (s : Machine) (pre post : List Op)
    (c : Op) (v : Nat)
    (hfree : s.out.active = false)
    (hpre : ∀ op ∈ pre, op ≠ Op.begin ∧ op ≠ Op.end_)
    (hc : c.isStart = true ∨ c = Op.stop)
    (hpost : ∀ op ∈ post, ∃ w, op = Op.setSpeed w)
    (hv8 : v < 256) (hv : k.IFX_MCS_LOWESTSPEED ≤ v) :
    ((Machine.run k (pre ++ c :: post ++ [Op.setSpeed v]) (Machine.begin k s).2).getRunning
        = true ↔
      (c.isStart = true ∧
        k.IFX_MCS_LOWESTSPEED ≤ (Machine.run k (pre ++ [c]) (Machine.begin k s).2).getSpeed ∧
        ∀ w, Op.setSpeed w ∈ post → k.IFX_MCS_LOWESTSPEED ≤ Machine.toUint8 w)) ∧
    (c = Op.stop →
      (Machine.run k (pre ++ c :: post ++ [Op.setSpeed v]) (Machine.begin k s).2).getRunning
        = false) := by
  have he0 : (Machine.begin k s).2.motor.mEnabled = true := (Machine.begin_free_flags k s hfree).1
  generalize (Machine.begin k s).2 = s0 at he0 ⊢
  have he1 : (Machine.run k pre s0).motor.mEnabled = true := by
    rw [Machine.run_mEnabled_of_no_lifecycle k pre s0 hpre, he0]
  have hcl : c ≠ Op.begin ∧ c ≠ Op.end_ := by
    cases c <;> simp [Op.isStart] at hc ⊢
  have he2 : (Machine.step k c (Machine.run k pre s0)).motor.mEnabled = true := by
    rw [(Machine.step_other_flags k c _ hcl.1 hcl.2).1, he1]
  have hv256 : Machine.toUint8 v = v := Nat.mod_eq_of_lt hv8
  have hpost2 : ∀ op ∈ post ++ [Op.setSpeed v], ∃ w, op = Op.setSpeed w := by
    intro op hop
    rcases List.mem_append.mp hop with h | h
    · exact hpost op h
    · exact ⟨v, List.mem_singleton.mp h⟩
  have hmain : (Machine.run k (pre ++ c :: post ++ [Op.setSpeed v]) s0).getRunning = true ↔
      (c.isStart = true ∧
        k.IFX_MCS_LOWESTSPEED ≤ (Machine.run k (pre ++ [c]) s0).getSpeed ∧
        ∀ w, Op.setSpeed w ∈ post → k.IFX_MCS_LOWESTSPEED ≤ Machine.toUint8 w) := by
    have hrun : Machine.run k (pre ++ c :: post ++ [Op.setSpeed v]) s0 =
        Machine.run k (post ++ [Op.setSpeed v]) (Machine.step k c (Machine.run k pre s0)) := by
      have hsplit : pre ++ c :: post ++ [Op.setSpeed v] =
          pre ++ (c :: (post ++ [Op.setSpeed v])) := by simp
      rw [hsplit, Machine.run_append_list]
      rfl
    rw [hrun, Machine.run_append k pre c s0]
    simp only [Machine.getRunning, Machine.getSpeed]
    rw [Machine.run_setSpeeds_mRunning k _ _ he2 hpost2,
      Machine.step_startStop_mRunning k c _ he1 hc]
    constructor
    · rintro ⟨⟨h1, h2⟩, h3⟩
      exact ⟨h1, h2, fun w hw => h3 w (List.mem_append_left _ hw)⟩
    · rintro ⟨h1, h2, h3⟩
      refine ⟨⟨h1, h2⟩, ?_⟩
      intro w hw
      rcases List.mem_append.mp hw with h | h
      · exact h3 w h
      · have hwv : w = v := by simpa using h
        rw [hwv, hv256]
        exact hv
  refine ⟨hmain, ?_⟩
  intro hstop
  cases hr : (Machine.run k (pre ++ c :: post ++ [Op.setSpeed v]) s0).getRunning
  · rfl
  · have := (hmain.mp hr).1
    rw [hstop] at this
    exact absurd this (by decide)

/-- Concrete instances of the amended C7, one ending in a start and one in a stop. -/
theorem running_reflects_last_call_witness :
    (Machine.run sampleConstants
        ([Op.setSpeed 0, Op.stop] ++ Op.startSpeed 200 :: [Op.setSpeed 100] ++ [Op.setSpeed 250])
        (Machine.begin sampleConstants ⟨freshMotor, sampleOut false, []⟩).2).getRunning = true ∧
    (Machine.run sampleConstants
        ([Op.start] ++ Op.stop :: [Op.setSpeed 100] ++ [Op.setSpeed 250])
        (Machine.begin sampleConstants ⟨freshMotor, sampleOut false, []⟩).2).getRunning = false :=
  ⟨(running_reflects_last_call sampleConstants ⟨freshMotor, sampleOut false, []⟩
      [Op.setSpeed 0, Op.stop] [Op.setSpeed 100] (Op.startSpeed 200) 250 rfl
      (by decide) (Or.inl rfl) (by simp) (by decide) (by decide)).1.mpr
      ⟨rfl, by decide, by simp [Machine.toUint8, sampleConstants]⟩,
   (running_reflects_last_call sampleConstants ⟨freshMotor, sampleOut false, []⟩
      [Op.start] [Op.setSpeed 100] Op.stop 250 rfl
      (by decide) (Or.inr rfl) (by simp) (by decide) (by decide)).2 rfl⟩

/-- C8: on a channel with `mEnabled` true, `mRunning` true and
`mSpeed >= IFX_MCS_LOWESTSPEED`, `update()` issues exactly: when
`mSpeed > IFX_MCS_HIGHESTSPEED`, `pinMode(pinIn, OUTPUT)`, `digitalWrite(pinIn, HIGH)`,
`digitalWrite(pinInh, HIGH)` and no PWM call; otherwise `ouputHfPwm(pinIn, mSpeed)` and
then `digitalWrite(pinInh, HIGH)`.  The motor fields and the descriptor are unchanged. -/
theorem update_running_calls (k : Constants) (t : Machine)
    (he : t.motor.mEnabled = true) (hr : t.motor.mRunning = true)
    (hlo : k.IFX_MCS_LOWESTSPEED ≤ t.motor.mSpeed) :
    (Machine.update k t).calls =
      t.calls ++
        (if t.motor.mSpeed > k.IFX_MCS_HIGHESTSPEED then
          [PlatformCall.pinMode t.out.pinIn PinMode.OUTPUT,
           PlatformCall.digitalWrite t.out.pinIn PinLevel.HIGH,
           PlatformCall.digitalWrite t.out.pinInh PinLevel.HIGH]
        else
          [PlatformCall.ouputHfPwm t.out.pinIn t.motor.mSpeed,
           PlatformCall.digitalWrite t.out.pinInh PinLevel.HIGH]) ∧
    (Machine.update k t).motor.mEnabled = t.motor.mEnabled ∧
    (Machine.update k t).motor.mRunning = t.motor.mRunning ∧
    (Machine.update k t).motor.mSpeed = t.motor.mSpeed ∧
    (Machine.update k t).out = t.out := by
  obtain ⟨⟨e, r, v⟩, o, cs⟩ := t
  simp only at he hr hlo
  subst he hr
  have hnlt : ¬ v < k.IFX_MCS_LOWESTSPEED := Nat.not_lt.mpr hlo
  by_cases hhi : v > k.IFX_MCS_HIGHESTSPEED <;>
  simp [Machine.update, Machine.setRunning, Machine.digitalWrite, Machine.pinMode,
    Machine.ouputHfPwm, hnlt, hhi]

/-- Concrete instances of C8, one modulated and one saturated. -/
theorem update_running_calls_witness :
    (Machine.update sampleConstants ⟨⟨true, true, 200⟩, sampleOut true, []⟩).calls =
      [PlatformCall.ouputHfPwm 3 200, PlatformCall.digitalWrite 12 PinLevel.HIGH] ∧
    (Machine.update sampleConstants ⟨⟨true, true, 250⟩, sampleOut true, []⟩).calls =
      [PlatformCall.pinMode 3 PinMode.OUTPUT, PlatformCall.digitalWrite 3 PinLevel.HIGH,
       PlatformCall.digitalWrite 12 PinLevel.HIGH] :=
  ⟨(update_running_calls sampleConstants ⟨⟨true, true, 200⟩, sampleOut true, []⟩ rfl rfl
      (by decide)).1,
   (update_running_calls sampleConstants ⟨⟨true, true, 250⟩, sampleOut true, []⟩ rfl rfl
      (by decide)).1⟩

/-- C9: on a channel with `mEnabled` true and with `mRunning` false or
`mSpeed < IFX_MCS_LOWESTSPEED`, `update()` leaves `mRunning` false and issues exactly
`digitalWrite(pinInh, LOW)`, `pinMode(pinIn, OUTPUT)`, `digitalWrite(pinIn, LOW)`: no PWM
call and no write of HIGH.  Consequently `stop()` on any enabled channel issues exactly
that sequence, so the drive pin and the inhibit pin are last driven LOW, and
`getRunning()` is false. -/
theorem update_off_calls (k : Constants) (t : Machine)
    (he : t.motor.mEnabled = true)
    (h : t.motor.mRunning = false ∨ t.motor.mSpeed < k.IFX_MCS_LOWESTSPEED) :
    (Machine.update k t).motor.mRunning = false ∧
    (Machine.update k t).calls = t.calls ++ offCalls t.out ∧
    (∀ c ∈ offCalls t.out,
      (∀ p v, c ≠ PlatformCall.ouputHfPwm p v) ∧
      (∀ p, c ≠ PlatformCall.digitalWrite p PinLevel.HIGH)) ∧
    (∀ u : Machine, u.motor.mEnabled = true →
      (Machine.stop k u).calls = u.calls ++ offCalls u.out ∧
      lastDrive u.out.pinIn (Machine.stop k u).calls = some (PinDrive.level PinLevel.LOW) ∧
      lastDrive u.out.pinInh (Machine.stop k u).calls = some (PinDrive.level PinLevel.LOW) ∧
      (Machine.stop k u).getRunning = false) := by
  refine ⟨?_, ?_, ?_, ?_⟩
  · rw [Machine.update_mRunning]
    rcases h with h | h
    · simp [h]
    · simp [he, h]
  · obtain ⟨⟨e, r, v⟩, o, cs⟩ := t
    simp only at he h
    subst he
    rcases h with h | h
    · subst h
      by_cases hlo : v < k.IFX_MCS_LOWESTSPEED <;>
      simp [Machine.update, Machine.setRunning, Machine.digitalWrite, Machine.pinMode,
        offCalls, hlo]
    · simp [Machine.update, Machine.setRunning, Machine.digitalWrite, Machine.pinMode,
        offCalls, h]
  · intro c hc
    simp only [offCalls, List.mem_cons, List.mem_singleton, List.not_mem_nil, or_false] at hc
    rcases hc with rfl | rfl | rfl <;> simp
  · intro u hu
    obtain ⟨⟨e, r, v⟩, o, cs⟩ := u
    simp only at hu
    subst hu
    have hcalls : (Machine.stop k ⟨⟨true, r, v⟩, o, cs⟩).calls = cs ++ offCalls o := by
      by_cases hlo : v < k.IFX_MCS_LOWESTSPEED <;>
      simp [Machine.stop, Machine.update, Machine.setRunning, Machine.digitalWrite,
        Machine.pinMode, offCalls, hlo]
    refine ⟨hcalls, ?_, ?_, ?_⟩
    · rw [hcalls]
      simp [lastDrive, offCalls, driveOf, List.foldl_append]
    · rw [hcalls]
      by_cases hp : o.pinIn = o.pinInh <;>
      simp [lastDrive, offCalls, driveOf, List.foldl_append, hp]
    · simp [Machine.getRunning, Machine.stop, Machine.update_mRunning, Machine.setRunning]

/-- Concrete instance of C9 with a speed below the threshold. -/
theorem update_off_calls_witness :
    (Machine.update sampleConstants ⟨⟨true, true, 2⟩, sampleOut true, []⟩).motor.mRunning
      = false ∧
    (Machine.update sampleConstants ⟨⟨true, true, 2⟩, sampleOut true, []⟩).calls =
      [PlatformCall.digitalWrite 12 PinLevel.LOW, PlatformCall.pinMode 3 PinMode.OUTPUT,
       PlatformCall.digitalWrite 3 PinLevel.LOW] ∧
    (Machine.stop sampleConstants ⟨⟨true, true, 200⟩, sampleOut true, []⟩).getRunning = false :=
  have w := update_off_calls sampleConstants ⟨⟨true, true, 2⟩, sampleOut true, []⟩ rfl
    (Or.inr (by decide))
  ⟨w.1, w.2.1, (w.2.2.2 ⟨⟨true, true, 200⟩, sampleOut true, []⟩ rfl).2.2.2⟩

/-- C10: on a channel with `mEnabled` false, each of `start()`, `start(s)`, `stop()`,
`setSpeed(s)` and `end()` issues no platform call and leaves the descriptor, its
`active` flag included, unchanged; `end()` leaves the whole state unchanged, so it
cannot release a claim held by another channel. -/
theorem disabled_no_platform_calls (k : Constants) (t : Machine) (s : Nat)
    (he : t.motor.mEnabled = false) :
    ((Machine.start k t).calls = t.calls ∧ (Machine.start k t).out = t.out) ∧
    ((Machine.startSpeed k s t).calls = t.calls ∧ (Machine.startSpeed k s t).out = t.out) ∧
    ((Machine.stop k t).calls = t.calls ∧ (Machine.stop k t).out = t.out) ∧
    ((Machine.setSpeed k s t).calls = t.calls ∧ (Machine.setSpeed k s t).out = t.out) ∧
    ((Machine.end_ k t).calls = t.calls ∧ (Machine.end_ k t).out = t.out ∧
      (Machine.end_ k t).motor.mEnabled = t.motor.mEnabled ∧
      (Machine.end_ k t).motor.mRunning = t.motor.mRunning ∧
      (Machine.end_ k t).motor.mSpeed = t.motor.mSpeed ∧
      Machine.end_ k t = t) := by
  obtain ⟨⟨e, r, v⟩, o, cs⟩ := t
  simp only at he
  subst he
  simp [Machine.start, Machine.startSpeed, Machine.stop, Machine.setSpeed, Machine.end_,
    Machine.update, Machine.setRunning, Machine.setSpeedField]

/-- Concrete instance of C10. -/
theorem disabled_no_platform_calls_witness :
    (Machine.startSpeed sampleConstants 200 ⟨⟨false, false, 0⟩, sampleOut true, []⟩).calls = [] ∧
    (Machine.end_ sampleConstants ⟨⟨false, true, 7⟩, sampleOut true, []⟩).out.active = true :=
  ⟨(disabled_no_platform_calls sampleConstants ⟨⟨false, false, 0⟩, sampleOut true, []⟩ 200
      rfl).2.1.1,
   by rw [(disabled_no_platform_calls sampleConstants ⟨⟨false, true, 7⟩, sampleOut true, []⟩ 0
      rfl).2.2.2.2.2.1]; rfl⟩

/-- C11: on a channel with `mEnabled` true, whatever `mRunning` and `mSpeed` are,
`end()` leaves `mEnabled` false, `mRunning` false and `active` false, leaves `mSpeed`
and the pin numbers unchanged, and issues exactly `digitalWrite(pinInh, LOW)`,
`pinMode(pinIn, OUTPUT)`, `digitalWrite(pinIn, LOW)`, so that the drive pin and the
inhibit pin are last driven LOW. -/
theorem end_enabled_releases (k : Constants) (t : Machine) (he : t.motor.mEnabled = true) :
    (Machine.end_ k t).motor.mEnabled = false ∧
    (Machine.end_ k t).motor.mRunning = false ∧
    (Machine.end_ k t).out.active = false ∧
    (Machine.end_ k t).motor.mSpeed = t.motor.mSpeed ∧
    (Machine.end_ k t).out.pinIn = t.out.pinIn ∧
    (Machine.end_ k t).out.pinInh = t.out.pinInh ∧
    (Machine.end_ k t).out.pinIs = t.out.pinIs ∧
    (Machine.end_ k t).calls = t.calls ++ offCalls t.out ∧
    lastDrive t.out.pinIn (Machine.end_ k t).calls = some (PinDrive.level PinLevel.LOW) ∧
    lastDrive t.out.pinInh (Machine.end_ k t).calls = some (PinDrive.level PinLevel.LOW) := by
  obtain ⟨⟨e, r, v⟩, o, cs⟩ := t
  simp only at he
  subst he
  have hcalls : (Machine.end_ k ⟨⟨true, r, v⟩, o, cs⟩).calls = cs ++ offCalls o := by
    by_cases hlo : v < k.IFX_MCS_LOWESTSPEED <;>
    simp [Machine.end_, Machine.stop, Machine.update, Machine.setRunning, Machine.setActive,
      Machine.setEnabled, Machine.digitalWrite, Machine.pinMode, offCalls, hlo]
  refine ⟨?_, ?_, ?_, ?_, ?_, ?_, ?_, hcalls, ?_, ?_⟩
  · simp [Machine.end_, Machine.setEnabled]
  · simp [Machine.end_, Machine.stop, Machine.update_mRunning, Machine.setRunning,
      Machine.setActive, Machine.setEnabled]
  · simp [Machine.end_, Machine.setActive, Machine.setEnabled]
  · simp [Machine.end_, Machine.stop, Machine.update_mSpeed, Machine.setRunning,
      Machine.setActive, Machine.setEnabled]
  · simp [Machine.end_, Machine.stop, Machine.update_out, Machine.setRunning,
      Machine.setActive, Machine.setEnabled]
  · simp [Machine.end_, Machine.stop, Machine.update_out, Machine.setRunning,
      Machine.setActive, Machine.setEnabled]
  · simp [Machine.end_, Machine.stop, Machine.update_out, Machine.setRunning,
      Machine.setActive, Machine.setEnabled]
  · rw [hcalls]
    simp [lastDrive, offCalls, driveOf, List.foldl_append]
  · rw [hcalls]
    by_cases hp : o.pinIn = o.pinInh <;>
    simp [lastDrive, offCalls, driveOf, List.foldl_append, hp]

/-- Concrete instance of C11 on a channel running at full drive. -/
theorem end_enabled_releases_witness :
    (Machine.end_ sampleConstants ⟨⟨true, true, 250⟩, sampleOut true, []⟩).motor
      = ⟨false, false, 250⟩ ∧
    (Machine.end_ sampleConstants ⟨⟨true, true, 250⟩, sampleOut true, []⟩).out.active = false ∧
    (Machine.end_ sampleConstants ⟨⟨true, true, 250⟩, sampleOut true, []⟩).calls =
      [PlatformCall.digitalWrite 12 PinLevel.LOW, PlatformCall.pinMode 3 PinMode.OUTPUT,
       PlatformCall.digitalWrite 3 PinLevel.LOW] :=
  have w := end_enabled_releases sampleConstants ⟨⟨true, true, 250⟩, sampleOut true, []⟩ rfl
  ⟨by decide, w.2.2.1, w.2.2.2.2.2.2.2.1⟩

/-- C12: `end()` is idempotent.  For every channel and descriptor state, the state after
`end(); end()` equals the state after one `end()`, the second `end()` issues no platform
call, and `getEnabled()` is false after the first call and after the second. -/
theorem end_idempotent (k : Constants) (t : Machine) :
    Machine.end_ k (Machine.end_ k t) = Machine.end_ k t ∧
    (Machine.end_ k (Machine.end_ k t)).calls = (Machine.end_ k t).calls ∧
    (Machine.end_ k t).getEnabled = false ∧
    (Machine.end_ k (Machine.end_ k t)).getEnabled = false := by
  have h1 : (Machine.end_ k t).motor.mEnabled = false := by
    cases he : t.motor.mEnabled
    · simp [Machine.end_, he]
    · simp [Machine.end_, he, Machine.setEnabled]
  have h2 : Machine.end_ k (Machine.end_ k t) = Machine.end_ k t := by
    generalize Machine.end_ k t = u at h1
    simp [Machine.end_, h1]
  refine ⟨h2, by rw [h2], h1, ?_⟩
  rw [h2]
  exact h1

/-- C13: the scenario of the specification, with `200` between the two thresholds and
`250` above `IFX_MCS_HIGHESTSPEED`, on a freshly constructed channel whose descriptor
has `active` false.  `begin()` returns false and leaves `active` true, `mEnabled` true,
`mRunning` false.  `start(200)` leaves speed `200` and running true; it issues the
off-state sequence (from its `setSpeed`) and then one `ouputHfPwm(pinIn, 200)` followed
by `digitalWrite(pinInh, HIGH)`.  `setSpeed(250)` issues `pinMode(pinIn, OUTPUT)`,
`digitalWrite(pinIn, HIGH)`, `digitalWrite(pinInh, HIGH)` and no PWM call.  `stop()`
issues the off-state sequence and leaves running false.  `end()` leaves `active` false
and `mEnabled` false. -/
theorem spec_scenario (k : Constants) (out : Halfbridge)
    (h : out.active = false)
    (hlo : k.IFX_MCS_LOWESTSPEED ≤ 200) (hmid : 200 ≤ k.IFX_MCS_HIGHESTSPEED)
    (hhi : k.IFX_MCS_HIGHESTSPEED < 250) :
    (Machine.begin k ⟨freshMotor, out, []⟩).1 = false ∧
    (scenarioState k out 1).out.active = true ∧
    (scenarioState k out 1).getEnabled = true ∧
    (scenarioState k out 1).getRunning = false ∧
    (scenarioState k out 2).getSpeed = 200 ∧
    (scenarioState k out 2).getRunning = true ∧
    (scenarioState k out 2).calls =
      (scenarioState k out 1).calls ++ offCalls out ++
        [PlatformCall.ouputHfPwm out.pinIn 200,
         PlatformCall.digitalWrite out.pinInh PinLevel.HIGH] ∧
    (scenarioState k out 3).calls =
      (scenarioState k out 2).calls ++
        [PlatformCall.pinMode out.pinIn PinMode.OUTPUT,
         PlatformCall.digitalWrite out.pinIn PinLevel.HIGH,
         PlatformCall.digitalWrite out.pinInh PinLevel.HIGH] ∧
    (scenarioState k out 4).calls = (scenarioState k out 3).calls ++ offCalls out ∧
    (scenarioState k out 4).getRunning = false ∧
    (scenarioState k out 5).out.active = false ∧
    (scenarioState k out 5).getEnabled = false := by
  obtain ⟨c1, hb⟩ := Machine.begin_free_state k ⟨freshMotor, out, []⟩ h
  have hret : (Machine.begin k ⟨freshMotor, out, []⟩).1 = false := by
    simp [Machine.begin, h]
  have hn1 : ¬ (200 < k.IFX_MCS_LOWESTSPEED) := Nat.not_lt.mpr hlo
  have hn2 : ¬ (k.IFX_MCS_HIGHESTSPEED < 200) := Nat.not_lt.mpr hmid
  have hn3 : ¬ (250 < k.IFX_MCS_LOWESTSPEED) := by omega
  obtain ⟨p1, p2, p3, a⟩ := out
  simp only at h
  subst h
  refine ⟨hret, ?_⟩
  simp only [scenarioState, List.take, Machine.run, Machine.step, hb]
  simp [Machine.startSpeed, Machine.start, Machine.stop, Machine.setSpeed, Machine.end_,
    Machine.update, Machine.setRunning, Machine.setSpeedField, Machine.setActive,
    Machine.setEnabled, Machine.digitalWrite, Machine.pinMode, Machine.ouputHfPwm,
    Machine.toUint8, Machine.getEnabled, Machine.getRunning, Machine.getSpeed, offCalls,
    hn1, hn2, hn3, hhi]

/-- Concrete instance of C13 with thresholds 5 and 240 on pins 3, 12, 14. -/
theorem spec_scenario_witness :
    (scenarioState sampleConstants (sampleOut false) 2).getSpeed = 200 ∧
    (scenarioState sampleConstants (sampleOut false) 2).getRunning = true ∧
    (scenarioState sampleConstants (sampleOut false) 5).getEnabled = false ∧
    (scenarioState sampleConstants (sampleOut false) 5).calls =
      [PlatformCall.pinMode 3 PinMode.OUTPUT, PlatformCall.pinMode 12 PinMode.OUTPUT,
       PlatformCall.pinMode 14 PinMode.INPUT,
       PlatformCall.digitalWrite 12 PinLevel.LOW, PlatformCall.pinMode 3 PinMode.OUTPUT,
       PlatformCall.digitalWrite 3 PinLevel.LOW,
       PlatformCall.digitalWrite 12 PinLevel.LOW, PlatformCall.pinMode 3 PinMode.OUTPUT,
       PlatformCall.digitalWrite 3 PinLevel.LOW,
       PlatformCall.digitalWrite 12 PinLevel.LOW, PlatformCall.pinMode 3 PinMode.OUTPUT,
       PlatformCall.digitalWrite 3 PinLevel.LOW,
       PlatformCall.ouputHfPwm 3 200, PlatformCall.digitalWrite 12 PinLevel.HIGH,
       PlatformCall.pinMode 3 PinMode.OUTPUT, PlatformCall.digitalWrite 3 PinLevel.HIGH,
       PlatformCall.digitalWrite 12 PinLevel.HIGH,
       PlatformCall.digitalWrite 12 PinLevel.LOW, PlatformCall.pinMode 3 PinMode.OUTPUT,
       PlatformCall.digitalWrite 3 PinLevel.LOW,
       PlatformCall.digitalWrite 12 PinLevel.LOW, PlatformCall.pinMode 3 PinMode.OUTPUT,
       PlatformCall.digitalWrite 3 PinLevel.LOW] :=
  have w := spec_scenario sampleConstants (sampleOut false) rfl (by decide) (by decide)
    (by decide)
  ⟨w.2.2.2.2.1, w.2.2.2.2.2.1, w.2.2.2.2.2.2.2.2.2.2.2, by decide⟩

/-- C14: outputs reflect state.  A single channel is constructed on a descriptor whose
drive pin and inhibit pin are different pins.  After every finite sequence of
`begin`/`end`/`start`/`stop`/`setSpeed` calls that leaves `mEnabled` true, the inhibit
pin was last driven HIGH if and only if `mRunning` is true, and the drive pin was last
driven LOW if `mRunning` is false, HIGH if running with
`mSpeed > IFX_MCS_HIGHESTSPEED`, and by a PWM call with duty cycle `mSpeed` otherwise.
This holds for a descriptor with `active` false in particular. -/
theorem outputs_reflect_state (k : Constants) (prior : IfxMcsUniDirectionalMotor)
    (out : Halfbridge) (calls : List PlatformCall) (ops : List Op)
    (hp : out.pinIn ≠ out.pinInh)
    (he : (Machine.run k ops ⟨prior.construct, out, calls⟩).getEnabled = true) :
    OutputsReflect k (Machine.run k ops ⟨prior.construct, out, calls⟩) := by
  apply Machine.run_reflects k ops ⟨prior.construct, out, calls⟩ hp _ he
  intro h
  simp [IfxMcsUniDirectionalMotor.construct] at h

/-- Concrete instance of C14: a channel left running at a modulated speed. -/
theorem outputs_reflect_state_witness :
    (sampleOut false).pinIn ≠ (sampleOut false).pinInh ∧
    (Machine.run sampleConstants [Op.begin, Op.startSpeed 250, Op.setSpeed 100]
      ⟨freshMotor, sampleOut false, []⟩).getEnabled = true ∧
    OutputsReflect sampleConstants
      (Machine.run sampleConstants [Op.begin, Op.startSpeed 250, Op.setSpeed 100]
        ⟨freshMotor, sampleOut false, []⟩) ∧
    lastDrive 3 (Machine.run sampleConstants [Op.begin, Op.startSpeed 250, Op.setSpeed 100]
        ⟨freshMotor, sampleOut false, []⟩).calls = some (PinDrive.pwm 100) :=
  ⟨by decide, by decide,
   outputs_reflect_state sampleConstants zeroStorage (sampleOut false) []
     [Op.begin, Op.startSpeed 250, Op.setSpeed 100] (by decide) (by decide),
   by decide⟩

/-- C15: from any initial state and for every finite sequence of
`begin`/`end`/`start`/`stop`/`setSpeed` calls, the calls issued during the sequence
follow the earlier ones, and every `ouputHfPwm` call among them has a duty cycle `i`
with `IFX_MCS_LOWESTSPEED <= i <= IFX_MCS_HIGHESTSPEED`. -/
theorem pwm_duty_in_range (k : Constants) (s : Machine) (ops : List Op) :
    ∃ issued, (Machine.run k ops s).calls = s.calls ++ issued ∧
      ∀ p i, PlatformCall.ouputHfPwm p i ∈ issued →
        k.IFX_MCS_LOWESTSPEED ≤ i ∧ i ≤ k.IFX_MCS_HIGHESTSPEED :=
  issuesInRange_run k ops s

/-- C16, refuted as stated: on an enabled channel whose speed is below
`IFX_MCS_LOWESTSPEED`, `getRunning()` is false after `start()`, and `getRunning()` is
false after `start(2)`. -/
theorem start_sets_running_counterexample :
    (Machine.run sampleConstants [Op.begin, Op.setSpeed 2]
      ⟨freshMotor, sampleOut false, []⟩).getEnabled = true ∧
    (Machine.start sampleConstants (Machine.run sampleConstants [Op.begin, Op.setSpeed 2]
      ⟨freshMotor, sampleOut false, []⟩)).getRunning = false ∧
    (Machine.run sampleConstants [Op.begin]
      ⟨freshMotor, sampleOut false, []⟩).getEnabled = true ∧
    (Machine.startSpeed sampleConstants 2 (Machine.run sampleConstants [Op.begin]
      ⟨freshMotor, sampleOut false, []⟩)).getRunning = false := by
  decide

/-- C16, amended: on an enabled channel, `getRunning()` after `start()` is true if and
only if `mSpeed >= IFX_MCS_LOWESTSPEED`.  For every state, `start(s)` is `setSpeed(s)`
followed by `start()`; on an enabled channel and for every 8-bit `s`, after `start(s)`
`getSpeed()` is `s` and `getRunning()` is true if and only if
`s >= IFX_MCS_LOWESTSPEED`. -/
theorem start_running_iff (k : Constants) (t : Machine) (s : Nat)
    (he : t.motor.mEnabled = true) (h8 : s < 256) :
    ((Machine.start k t).getRunning = true ↔ k.IFX_MCS_LOWESTSPEED ≤ t.motor.mSpeed) ∧
    (∀ u : Machine, Machine.startSpeed k s u = Machine.start k (Machine.setSpeed k s u)) ∧
    (Machine.startSpeed k s t).getSpeed = s ∧
    ((Machine.startSpeed k s t).getRunning = true ↔ k.IFX_MCS_LOWESTSPEED ≤ s) := by
  have hs : s % 256 = s := Nat.mod_eq_of_lt h8
  refine ⟨?_, ?_, ?_, ?_⟩
  · simp [Machine.getRunning, Machine.start, Machine.update_mRunning, Machine.setRunning, he]
  · intro u
    simp [Machine.startSpeed, Machine.setSpeed, Machine.toUint8]
  · simp [Machine.getSpeed, Machine.startSpeed, Machine.start, Machine.setSpeed,
      Machine.update_mSpeed, Machine.setRunning, Machine.setSpeedField, Machine.toUint8, hs]
  · simp [Machine.getRunning, Machine.startSpeed, Machine.start, Machine.setSpeed,
      Machine.update_mRunning, Machine.update_mEnabled, Machine.update_mSpeed,
      Machine.setRunning, Machine.setSpeedField, Machine.toUint8, hs, he]

/-- Concrete instance of the amended C16: `start(200)` on a stopped, enabled channel. -/
theorem start_running_iff_witness :
    (200 : Nat) < 256 ∧
    (Machine.startSpeed sampleConstants 200 ⟨⟨true, false, 9⟩, sampleOut true, []⟩).getSpeed
      = 200 ∧
    (Machine.startSpeed sampleConstants 200 ⟨⟨true, false, 9⟩, sampleOut true, []⟩).getRunning
      = true :=
  have w := start_running_iff sampleConstants ⟨⟨true, false, 9⟩, sampleOut true, []⟩ 200 rfl
    (by decide)
  ⟨by decide, w.2.2.1, w.2.2.2.mpr (by decide)⟩

/-- C17, refuted as stated: on a freshly constructed channel and an unclaimed descriptor,
the calls of `begin()` are not the three pin configurations followed by the calls of one
`update()`, of whatever state: `begin()` issues nine calls, one `update()` at most three. -/
theorem begin_single_update_counterexample :
    ¬ ∃ t : Machine,
      (Machine.begin sampleConstants ⟨freshMotor, sampleOut false, []⟩).2.calls =
        beginPinModes (sampleOut false) ++
          (Machine.update sampleConstants t).calls.drop t.calls.length := by
  rintro ⟨t, ht⟩
  have hlen := congrArg List.length ht
  have h3 := Machine.update_issues_at_most_three sampleConstants t
  have h9 : (Machine.begin sampleConstants ⟨freshMotor, sampleOut false, []⟩).2.calls.length
      = 9 := by decide
  rw [h9, List.length_append] at hlen
  have hp : (beginPinModes (sampleOut false)).length = 3 := rfl
  omega

/-- C17, amended: on an unclaimed descriptor and with `mRunning` false at the call,
`begin()` runs `update()` twice, once in `setSpeed(IFX_MCS_INITIALSPEED)` and once in
`stop()`.  Its calls are exactly the three pin configurations (drive OUTPUT, inhibit
OUTPUT, sense INPUT), then the off-state sequence of the first `update()`, then the
off-state sequence of the second. -/
theorem begin_calls_two_updates (k : Constants) (s : Machine)
    (h : s.out.active = false) (hr : s.motor.mRunning = false) :
    (Machine.begin k s).2 =
      Machine.update k ((Machine.update k (Machine.beginBeforeUpdate k s)).setRunning false) ∧
    (Machine.beginBeforeUpdate k s).calls = s.calls ++ beginPinModes s.out ∧
    (Machine.update k (Machine.beginBeforeUpdate k s)).calls =
      (Machine.beginBeforeUpdate k s).calls ++ offCalls s.out ∧
    (Machine.begin k s).2.calls =
      s.calls ++ beginPinModes s.out ++ offCalls s.out ++ offCalls s.out := by
  have hc : (Machine.beginBeforeUpdate k s).calls = s.calls ++ beginPinModes s.out := by
    simp [Machine.beginBeforeUpdate, Machine.setActive, Machine.setEnabled, Machine.pinMode,
      Machine.setSpeedField, beginPinModes]
  have hf : beginFirstUpdateCalls k s.out s.motor.mRunning = offCalls s.out := by
    simp [beginFirstUpdateCalls, hr]
  refine ⟨Machine.begin_free_two_updates k s h, hc, ?_,
    begin_free_calls_stopped k s h (Or.inl hr)⟩
  rw [hc, Machine.beginBeforeUpdate_update_calls k s, hf]

/-- Concrete instance of the amended C17 on a freshly constructed channel. -/
theorem begin_calls_two_updates_witness :
    (sampleOut false).active = false ∧ freshMotor.mRunning = false ∧
    (Machine.begin sampleConstants ⟨freshMotor, sampleOut false, []⟩).2.calls =
      [] ++ beginPinModes (sampleOut false) ++ offCalls (sampleOut false) ++
        offCalls (sampleOut false) ∧
    (Machine.begin sampleConstants ⟨freshMotor, sampleOut false, []⟩).2.calls.length = 9 :=
  ⟨rfl, rfl,
   (begin_calls_two_updates sampleConstants ⟨freshMotor, sampleOut false, []⟩ rfl rfl).2.2.2,
   by decide⟩

/-- C18, evaluated on storage that held `mRunning = true`: after construction
`getEnabled()` is false and `getSpeed()` is `0`, but `getRunning()` is true, because the
constructor assigns `mEnabled` and `mSpeed` and never `mRunning`. -/
theorem construct_leaves_mRunning :
    Machine.getEnabled ⟨IfxMcsUniDirectionalMotor.construct ⟨true, true, 77⟩,
      sampleOut false, []⟩ = false ∧
    Machine.getSpeed ⟨IfxMcsUniDirectionalMotor.construct ⟨true, true, 77⟩,
      sampleOut false, []⟩ = 0 ∧
    Machine.getRunning ⟨IfxMcsUniDirectionalMotor.construct ⟨true, true, 77⟩,
      sampleOut false, []⟩ = true := by
  decide

/-- C19, evaluated on a freshly constructed channel after `start()`: the following
`begin()` on the unclaimed descriptor issues `ouputHfPwm(pinIn, 127)` and
`digitalWrite(pinInh, HIGH)` (from the `update()` of `setSpeed(IFX_MCS_INITIALSPEED)`,
run while `mRunning` is still true) before the off-state sequence of `stop()`. -/
theorem begin_energises_after_start :
    (Machine.begin sampleConstants
      (Machine.run sampleConstants [Op.start] ⟨freshMotor, sampleOut false, []⟩)).1 = false ∧
    (Machine.begin sampleConstants
      (Machine.run sampleConstants [Op.start] ⟨freshMotor, sampleOut false, []⟩)).2.calls =
      [PlatformCall.pinMode 3 PinMode.OUTPUT, PlatformCall.pinMode 12 PinMode.OUTPUT,
       PlatformCall.pinMode 14 PinMode.INPUT,
       PlatformCall.ouputHfPwm 3 127, PlatformCall.digitalWrite 12 PinLevel.HIGH,
       PlatformCall.digitalWrite 12 PinLevel.LOW, PlatformCall.pinMode 3 PinMode.OUTPUT,
       PlatformCall.digitalWrite 3 PinLevel.LOW] := by
  decide
